import Mathlib

/-!
Verification of the Vienna Game Job System core
(src/GameJobSystem/GameJobSystem.h) against its specification.

The embedding is shallow: each C++ member function that the claims touch is
translated into an executable Lean definition over explicit state.

Pointer model: a `Job*` is a pair `(pool number, slot index)` into the
segmented slot store of `JobMemory` (`m_jobPools[pool]->jobLists`,
flattened: slot index `i` lives in segment `i / 4096` at offset
`i % 4096`).  `std::shared_ptr<Function>` is modelled as `Option Nat`
(an opaque handle to the callable; `none` is the null pointer).
`uint32_t` counters are modelled as `Nat`: all counters in the claims move
by `±1` from small values, far from `2^32`, so wrap-around never occurs on
the traced paths.
-/

/-- Reference to a job: (pool number, flat slot index). Models `Job*`. -/
abbrev JobRef := Nat × Nat

/-- Fields of `class Job` (GameJobSystem.h lines 41-50). -/
structure JobRec where
  m_available : Bool
  m_poolNumber : Nat
  m_function : Option Nat
  m_parentJob : Option JobRef
  m_numUnfinishedChildren : Nat
  m_onFinishedJob : Option JobRef
  m_pFirstChild : Option JobRef
  m_pLastChild : Option JobRef
  m_pNextSibling : Option JobRef
  deriving Repr, DecidableEq

/-- A freshly constructed `Job` (constructor, lines 94-95).  The constructor
initializes neither `m_available` nor `m_pLastChild`; `avail` is the
indeterminate value the uninitialized `m_available` happens to hold.
`m_pLastChild` is modelled as `none`: it is only ever read under a
`m_pFirstChild != nullptr` guard, and `m_pFirstChild` starts as null. -/
def freshJob (avail : Bool) : JobRec :=
  ⟨avail, 0, none, none, 0, none, none, none, none⟩

/-- Segment length `m_listLength` (line 110). -/
def listLength : Nat := 4096

/-- Fields of `JobMemory::JobPool` (lines 113-131), with the segment list
flattened into one slot list (`slots.length = jobLists.size * 4096`). -/
structure JobPool where
  jobIndex : Nat
  slots : List JobRec
  numJobsLeftToPlay : Nat
  isPlayedBack : Bool
  pOnPlaybackFinishedJob : Option JobRef
  deriving Repr, DecidableEq

/-- A newly constructed `JobPool` (lines 121-124): index 0, one segment of
4096 default-constructed jobs.  `numJobsLeftToPlay` is an uninitialized
atomic in the source; it is only read after `playBackPool` stores to it, so
0 here is a harmless placeholder. -/
def newJobPool (avail : Bool) : JobPool :=
  ⟨0, List.replicate listLength (freshJob avail), 0, false, none⟩

/-- State of the `JobMemory` singleton (line 134): the pool list, plus the
indeterminate value fresh slots carry in their uninitialized
`m_available`. -/
structure JobMemoryS where
  pools : List JobPool
  freshAvail : Bool
  deriving Repr, DecidableEq

/-- Read `m_jobPools[pn]` (out-of-range access is undefined behaviour in the
source; the total model returns a fresh pool there). -/
def getPool (m : JobMemoryS) (pn : Nat) : JobPool :=
  m.pools.getD pn (newJobPool m.freshAvail)

/-- Dereference a `Job*`. -/
def getJob (m : JobMemoryS) (r : JobRef) : JobRec :=
  (getPool m r.1).slots.getD r.2 (freshJob m.freshAvail)

/-- Write through a `Job*`. -/
def setJob (m : JobMemoryS) (r : JobRef) (j : JobRec) : JobMemoryS :=
  { m with pools :=
      m.pools.set r.1 ({ getPool m r.1 with slots := (getPool m r.1).slots.set r.2 j }) }

/-- A `Job*` that points into an existing slot of an existing pool. -/
def validRef (m : JobMemoryS) (r : JobRef) : Prop :=
  r.1 < m.pools.length ∧ r.2 < (getPool m r.1).slots.length

instance (m : JobMemoryS) (r : JobRef) : Decidable (validRef m r) :=
  inferInstanceAs (Decidable (_ ∧ _))

/-- `Job::setParentJob` (lines 54-65), called on `child` with argument
`parent`: store the parent pointer, increment the parent's
`m_numUnfinishedChildren`, and append `child` to the parent's child list.
If `m_pFirstChild` is set but `m_pLastChild` is null the source dereferences
a null pointer (undefined behaviour); the total model leaves the state as-is
in that unreachable case. -/
def setParentJob (m : JobMemoryS) (child parent : JobRef) : JobMemoryS :=
  let m₁ := setJob m child { getJob m child with m_parentJob := some parent }
  let m₂ := setJob m₁ parent
    { getJob m₁ parent with
      m_numUnfinishedChildren := (getJob m₁ parent).m_numUnfinishedChildren + 1 }
  match (getJob m₂ parent).m_pFirstChild with
  | some _ =>
    match (getJob m₂ parent).m_pLastChild with
    | some last =>
      let m₃ := setJob m₂ last { getJob m₂ last with m_pNextSibling := some child }
      setJob m₃ parent { getJob m₃ parent with m_pLastChild := some child }
    | none => m₂
  | none =>
    let m₃ := setJob m₂ parent { getJob m₂ parent with m_pFirstChild := some child }
    setJob m₃ parent { getJob m₃ parent with m_pLastChild := some child }

/-- `Job::setOnFinished` (lines 69-71). -/
def setOnFinished (m : JobMemoryS) (r : JobRef) (j : Option JobRef) : JobMemoryS :=
  setJob m r { getJob m r with m_onFinishedJob := j }

/-- `Job::setFunction` (lines 75-77). -/
def setFunction (m : JobMemoryS) (r : JobRef) (f : Option Nat) : JobMemoryS :=
  setJob m r { getJob m r with m_function := f }

/-- Replace pool `pn`. -/
def setPool (m : JobMemoryS) (pn : Nat) (p : JobPool) : JobMemoryS :=
  { m with pools := m.pools.set pn p }

/-- `JobMemory::resetPool` (lines 195-207): create any missing pools up to
`pn`, then set that pool's `jobIndex` to 0. -/
def resetPool (m : JobMemoryS) (pn : Nat) : JobMemoryS :=
  let m' := if m.pools.length ≤ pn then
      { m with pools := m.pools ++
          List.replicate (pn + 1 - m.pools.length) (newJobPool m.freshAvail) }
    else m
  setPool m' pn ({ getPool m' pn with jobIndex := 0 })

/-- `JobMemory::getNextJob` (lines 160-175): create the pool if missing,
reserve index `jobIndex` (post-incrementing it), append one 4096-slot
segment when the reserved index crosses the current capacity
(`index > jobLists.size()*4096 - 1`, i.e. `slots.length ≤ index`), and
return the reserved index. -/
def getNextJob (m : JobMemoryS) (pn : Nat) : JobMemoryS × Nat :=
  let m₁ := if m.pools.length ≤ pn then resetPool m pn else m
  let index := (getPool m₁ pn).jobIndex
  let m₂ := setPool m₁ pn ({ getPool m₁ pn with jobIndex := index + 1 })
  let m₃ := if (getPool m₂ pn).slots.length ≤ index then
      setPool m₂ pn ({ getPool m₂ pn with
        slots := (getPool m₂ pn).slots ++ List.replicate listLength (freshJob m₂.freshAvail) })
    else m₂
  (m₃, index)

/-- `JobMemory::allocateJob` (lines 179-191): probe successive slots until
one with `m_available == true` is found, initialize its bookkeeping fields,
and hook it up to `pParent` if given.  The source's do-while loop can spin
forever; `fuel` bounds the number of probes and `none` is returned on
exhaustion.  Faithful to the source, the chosen slot's `m_available` flag is
NOT cleared. -/
def allocateJob : Nat → JobMemoryS → Option JobRef → Nat → Option (JobMemoryS × JobRef)
  | 0, _, _, _ => none
  | fuel + 1, m, pParent, pn =>
    let s := getNextJob m pn
    let m₁ := s.1
    let idx := s.2
    if (getJob m₁ (pn, idx)).m_available then
      let j := getJob m₁ (pn, idx)
      let m₂ := setJob m₁ (pn, idx)
        { j with m_poolNumber := pn, m_onFinishedJob := none,
                 m_pFirstChild := none, m_pLastChild := none, m_pNextSibling := none }
      let m₃ := match pParent with
        | some par => setParentJob m₂ (pn, idx) par
        | none => m₂
      some (m₃, (pn, idx))
    else allocateJob fuel m₁ pParent pn

/-! ## Work queue (`class JobQueue`, lines 214-254)

`std::queue<Job*>` is modelled as a `List JobRef` with the front at the
head.  The mutex only serializes the operations; each operation is a pure
function of the queue contents. -/

/-- `JobQueue::push` (lines 223-227): append at the back. -/
def push (q : List JobRef) (r : JobRef) : List JobRef := q ++ [r]

/-- `JobQueue::pop` (lines 230-240): if empty return null and leave the
queue untouched, else remove and return the front element. -/
def pop : List JobRef → Option JobRef × List JobRef
  | [] => (none, [])
  | x :: xs => (some x, xs)

/-- `JobQueue::steal` (lines 243-253): textually the same body as `pop`:
if empty return null, else remove and return the front element. -/
def steal : List JobRef → Option JobRef × List JobRef
  | [] => (none, [])
  | x :: xs => (some x, xs)

/-- Sequence of jobs obtained by popping the queue until it is empty. -/
def drain : List JobRef → List JobRef
  | [] => []
  | x :: xs => x :: drain xs

theorem drain_pop_step : ∀ q : List JobRef,
    drain q = match pop q with
      | (none, _) => []
      | (some x, rest) => x :: drain rest := by
  intro q
  cases q with
  | nil => rfl
  | cons x xs => rfl

theorem drain_append : ∀ q q' : List JobRef, drain (q ++ q') = drain q ++ drain q' := by
  intro q q'
  induction q with
  | nil => rfl
  | cons x xs ih => simp [drain, ih]

/-- C7: for every queue state, `steal()` returns the same result and leaves
the queue in the same state as `pop()`; both remove and return the front
element, and both return null on an empty queue without changing it. -/
theorem steal_equals_pop :
    (∀ q : List JobRef, steal q = pop q) ∧
    steal [] = (none, []) ∧ pop [] = (none, []) ∧
    (∀ (x : JobRef) (xs : List JobRef), steal (x :: xs) = (some x, xs) ∧
      pop (x :: xs) = (some x, xs)) := by
  refine ⟨?_, rfl, rfl, ?_⟩
  · intro q
    cases q with
    | nil => rfl
    | cons x xs => rfl
  · intro x xs
    exact ⟨rfl, rfl⟩

/-- C8: each queue is FIFO with respect to its own `push` calls: pushing `a`
then `b` makes the pop sequence end with `a` followed by `b` (after the
elements already queued), popping an empty queue returns null and leaves it
empty, and `drain` is exactly iterated `pop`. -/
theorem pushes_pop_in_fifo_order :
    (∀ (q : List JobRef) (a b : JobRef),
       drain (push (push q a) b) = drain q ++ [a, b]) ∧
    pop [] = (none, []) ∧
    (∀ q : List JobRef,
       drain q = match pop q with
         | (none, _) => []
         | (some x, rest) => x :: drain rest) := by
  refine ⟨?_, rfl, drain_pop_step⟩
  intro q a b
  simp [push, drain_append, drain]

/-! ## Small list lemmas used to reason about slot updates -/

theorem lset_getD_ne {α : Type} : ∀ (l : List α) (i j : Nat) (x d : α), i ≠ j →
    (l.set i x).getD j d = l.getD j d := by
  intro l
  induction l with
  | nil => intro i j x d _; cases i <;> rfl
  | cons a as ih =>
    intro i j x d h
    cases i with
    | zero =>
      cases j with
      | zero => exact absurd rfl h
      | succ j' => rfl
    | succ i' =>
      cases j with
      | zero => rfl
      | succ j' =>
        have h' : i' ≠ j' := fun hh => h (by rw [hh])
        simpa [List.getD] using ih i' j' x d h'

theorem lset_getD_self {α : Type} : ∀ (l : List α) (i : Nat) (x d : α), i < l.length →
    (l.set i x).getD i d = x := by
  intro l
  induction l with
  | nil => intro i x d h; simp at h
  | cons a as ih =>
    intro i x d h
    cases i with
    | zero => rfl
    | succ i' =>
      have h' : i' < as.length := by simpa using h
      simpa [List.getD] using ih i' x d h'

theorem lappend_getD_left {α : Type} : ∀ (l l' : List α) (i : Nat) (d : α), i < l.length →
    (l ++ l').getD i d = l.getD i d := by
  intro l
  induction l with
  | nil => intro l' i d h; simp at h
  | cons a as ih =>
    intro l' i d h
    cases i with
    | zero => rfl
    | succ i' =>
      have h' : i' < as.length := by simpa using h
      simpa [List.getD] using ih l' i' d h'

/-- C5: on an existing pool, `resetPool` replaces only that pool's
`jobIndex` with 0: the pool list is the original one with pool `pn` swapped
for a copy whose `jobIndex` is 0, so every slot (hence every
parent/first_child/last_child/next_sibling/on_finished/function/available
field) and the pool's playback state (`isPlayedBack`, `numJobsLeftToPlay`,
`pOnPlaybackFinishedJob`) are exactly as before, and every other pool is
untouched. -/
theorem resetPool_only_clears_jobIndex (m : JobMemoryS) (pn : Nat)
    (h : pn < m.pools.length) :
    (resetPool m pn).pools = m.pools.set pn ({ getPool m pn with jobIndex := 0 }) ∧
    (resetPool m pn).freshAvail = m.freshAvail ∧
    (getPool (resetPool m pn) pn).jobIndex = 0 ∧
    (getPool (resetPool m pn) pn).slots = (getPool m pn).slots ∧
    (getPool (resetPool m pn) pn).isPlayedBack = (getPool m pn).isPlayedBack ∧
    (getPool (resetPool m pn) pn).numJobsLeftToPlay = (getPool m pn).numJobsLeftToPlay ∧
    (getPool (resetPool m pn) pn).pOnPlaybackFinishedJob
      = (getPool m pn).pOnPlaybackFinishedJob := by
  have hnot : ¬ (m.pools.length ≤ pn) := by omega
  have hpools : (resetPool m pn).pools
      = m.pools.set pn ({ getPool m pn with jobIndex := 0 }) := by
    simp [resetPool, setPool, hnot]
  have hfresh : (resetPool m pn).freshAvail = m.freshAvail := by
    simp [resetPool, setPool, hnot]
  have hget : getPool (resetPool m pn) pn = { getPool m pn with jobIndex := 0 } := by
    unfold getPool
    rw [hpools, hfresh]
    exact lset_getD_self m.pools pn _ _ h
  exact ⟨hpools, hfresh, by rw [hget], by rw [hget], by rw [hget], by rw [hget], by rw [hget]⟩

/-- Witness for C5 at a concrete one-pool memory. -/
theorem resetPool_only_clears_jobIndex_w :
    (resetPool (JobMemoryS.mk [JobPool.mk 5 [freshJob true] 3 true (some (0, 0))] false) 0).pools
      = (JobMemoryS.mk [JobPool.mk 5 [freshJob true] 3 true (some (0, 0))] false).pools.set 0
          ({ getPool (JobMemoryS.mk [JobPool.mk 5 [freshJob true] 3 true (some (0, 0))] false) 0
              with jobIndex := 0 }) ∧
    (resetPool (JobMemoryS.mk [JobPool.mk 5 [freshJob true] 3 true (some (0, 0))] false) 0).freshAvail
      = (JobMemoryS.mk [JobPool.mk 5 [freshJob true] 3 true (some (0, 0))] false).freshAvail ∧
    (getPool (resetPool (JobMemoryS.mk [JobPool.mk 5 [freshJob true] 3 true (some (0, 0))] false) 0) 0).jobIndex = 0 ∧
    (getPool (resetPool (JobMemoryS.mk [JobPool.mk 5 [freshJob true] 3 true (some (0, 0))] false) 0) 0).slots
      = (getPool (JobMemoryS.mk [JobPool.mk 5 [freshJob true] 3 true (some (0, 0))] false) 0).slots ∧
    (getPool (resetPool (JobMemoryS.mk [JobPool.mk 5 [freshJob true] 3 true (some (0, 0))] false) 0) 0).isPlayedBack
      = (getPool (JobMemoryS.mk [JobPool.mk 5 [freshJob true] 3 true (some (0, 0))] false) 0).isPlayedBack ∧
    (getPool (resetPool (JobMemoryS.mk [JobPool.mk 5 [freshJob true] 3 true (some (0, 0))] false) 0) 0).numJobsLeftToPlay
      = (getPool (JobMemoryS.mk [JobPool.mk 5 [freshJob true] 3 true (some (0, 0))] false) 0).numJobsLeftToPlay ∧
    (getPool (resetPool (JobMemoryS.mk [JobPool.mk 5 [freshJob true] 3 true (some (0, 0))] false) 0) 0).pOnPlaybackFinishedJob
      = (getPool (JobMemoryS.mk [JobPool.mk 5 [freshJob true] 3 true (some (0, 0))] false) 0).pOnPlaybackFinishedJob :=
  resetPool_only_clears_jobIndex
    (JobMemoryS.mk [JobPool.mk 5 [freshJob true] 3 true (some (0, 0))] false) 0 (by decide)

/-! ## Thread identity map and current-job registry -/

/-- Lookup in the `std::map<std::thread::id, uint32_t>`; thread ids are
modelled as naturals, the map as an association list. -/
def mapLookup : List (Nat × Nat) → Nat → Option Nat
  | [], _ => none
  | (k, v) :: rest, tid => if k = tid then some v else mapLookup rest tid

/-- `JobSystem::getThreadNumber` (lines 385-387):
`return m_threadIndexMap[std::this_thread::get_id()]`.  For an absent key,
`std::map::operator[]` value-initializes the mapped value, i.e. it inserts
the key with index 0 and returns 0. -/
def getThreadNumber (mp : List (Nat × Nat)) (tid : Nat) : Nat × List (Nat × Nat) :=
  match mapLookup mp tid with
  | some i => (i, mp)
  | none => (0, mp ++ [(tid, 0)])

/-- `JobSystem::getJobPointer` (lines 391-393):
`return m_jobPointers[getThreadNumber()]` (with the map side effect of
`getThreadNumber`). -/
def getJobPointer (jps : List (Option JobRef)) (mp : List (Nat × Nat)) (tid : Nat) :
    Option JobRef × List (Nat × Nat) :=
  (jps.getD (getThreadNumber mp tid).1 none, (getThreadNumber mp tid).2)

/-- C10: a thread whose identity was never registered (including the main
thread) gets index 0 from `getThreadNumber` (the map default-inserts 0), so
`getJobPointer` on such a thread reads worker 0's current-job slot, and it
returns null exactly when worker 0 has no job recorded there. -/
theorem unregistered_thread_reads_worker_zero (mp : List (Nat × Nat)) (tid : Nat)
    (jps : List (Option JobRef)) (h : mapLookup mp tid = none) :
    (getThreadNumber mp tid).1 = 0 ∧
    (getThreadNumber mp tid).2 = mp ++ [(tid, 0)] ∧
    (getJobPointer jps mp tid).1 = jps.getD 0 none ∧
    ((getJobPointer jps mp tid).1 = none ↔ jps.getD 0 none = none) := by
  simp [getThreadNumber, getJobPointer, h]

/-- Witness for C10: worker 5 is registered, thread 3 is not. -/
theorem unregistered_thread_reads_worker_zero_w :
    (getThreadNumber [(5, 1)] 3).1 = 0 ∧
    (getThreadNumber [(5, 1)] 3).2 = [(5, 1)] ++ [(3, 0)] ∧
    (getJobPointer [some (0, 0)] [(5, 1)] 3).1 = [some (0, 0)].getD 0 none ∧
    ((getJobPointer [some (0, 0)] [(5, 1)] 3).1 = none ↔
      ([some (0, 0)] : List (Option JobRef)).getD 0 none = none) :=
  unregistered_thread_reads_worker_zero [(5, 1)] 3 [some (0, 0)] (by decide)

/-! ## Scheduler state -/

/-- The `JobSystem` fields the claims touch: the job memory, the global job
counter `m_numJobs`, the per-worker queues `m_jobQueues`, the current-job
registry `m_jobPointers`, and the thread identity map `m_threadIndexMap`. -/
structure SysState where
  mem : JobMemoryS
  numJobs : Nat
  queues : List (List JobRef)
  jobPointers : List (Option JobRef)
  threadIndexMap : List (Nat × Nat)
  deriving Repr, DecidableEq

/-- `JobSystem::addJob(Job*)` (lines 418-421): increment the global job
counter and push onto the queue whose index is `std::rand() % thread
count`; `rand` models the value the random draw produced. -/
def addJobRef (st : SysState) (r : JobRef) (rand : Nat) : SysState :=
  { st with numJobs := st.numJobs + 1,
            queues := st.queues.set (rand % st.queues.length)
              (push (st.queues.getD (rand % st.queues.length) []) r) }

/-- `JobSystem::addChildJob(func, poolNumber, id)` (lines 459-467): if the
target pool is being played back, return immediately; otherwise allocate a
job whose parent is the calling thread's current job, set its function and
enqueue it.  `tid` is the calling thread's identity, `rand` the random
queue draw, `fuel` the probe bound of `allocateJob`. -/
def addChildJob (st : SysState) (tid func pn rand fuel : Nat) : Option SysState :=
  if (getPool st.mem pn).isPlayedBack then some st
  else
    let t := getThreadNumber st.threadIndexMap tid
    let st₁ := { st with threadIndexMap := t.2 }
    let cur := st₁.jobPointers.getD t.1 none
    match allocateJob fuel st₁.mem cur pn with
    | none => none
    | some (m₁, r) =>
      let m₂ := setFunction m₁ r (some func)
      some (addJobRef ({ st₁ with mem := m₂ }) r rand)

/-- `JobSystem::onFinishedAddJob(func, id)` (lines 471-482): resolve the
current job (the source dereferences it before its own null check, so the
null case is undefined behaviour, modelled as `none`); if the current job's
pool is being played back return unchanged; otherwise allocate a job with
the current job's parent as parent, in the current job's pool, set its
function, and register it as the current job's `m_onFinishedJob`. -/
def onFinishedAddJob (st : SysState) (tid func fuel : Nat) : Option SysState :=
  let t := getThreadNumber st.threadIndexMap tid
  let st₁ := { st with threadIndexMap := t.2 }
  match st₁.jobPointers.getD t.1 none with
  | none => none
  | some c =>
    if (getPool st₁.mem (getJob st₁.mem c).m_poolNumber).isPlayedBack then some st₁
    else
      match allocateJob fuel st₁.mem (getJob st₁.mem c).m_parentJob
          (getJob st₁.mem c).m_poolNumber with
      | none => none
      | some (m₁, r) =>
        let m₂ := setFunction m₁ r (some func)
        let m₃ := setOnFinished m₂ c (some r)
        some ({ st₁ with mem := m₃ })

/-- C6: whenever the target pool's `isPlayedBack` flag is set,
`addChildJob` returns before doing anything: no allocation, no enqueue, no
touch of the current job or of any counter — the whole scheduler state is
returned unchanged. -/
theorem addChildJob_noop_during_playback (st : SysState) (tid func pn rand fuel : Nat)
    (h : (getPool st.mem pn).isPlayedBack = true) :
    addChildJob st tid func pn rand fuel = some st := by
  simp [addChildJob, h]

/-- Witness for C6 at a concrete state whose pool 0 is in playback. -/
theorem addChildJob_noop_during_playback_w :
    addChildJob (SysState.mk (JobMemoryS.mk [JobPool.mk 2 [] 2 true none] false) 7 [[]]
      [none] []) 0 4 0 1 1
      = some (SysState.mk (JobMemoryS.mk [JobPool.mk 2 [] 2 true none] false) 7 [[]]
          [none] []) :=
  addChildJob_noop_during_playback
    (SysState.mk (JobMemoryS.mk [JobPool.mk 2 [] 2 true none] false) 7 [[]] [none] []) 0 4 0 1 1
    (by decide)

/-! ## Job execution (`Job::operator()`, lines 511-534) -/

/-- Walk of a recorded child list: start at a `m_pFirstChild` pointer and
follow `m_pNextSibling` links until null (operator() lines 518-523).
`cfuel` bounds the walk so the function is total; on recorded (acyclic)
chains that are shorter than `cfuel` it returns the whole chain. -/
def childChain (m : JobMemoryS) : Nat → Option JobRef → List JobRef
  | 0, _ => []
  | _ + 1, none => []
  | cfuel + 1, some r => r :: childChain m cfuel (getJob m r).m_pNextSibling

/-- Observable effects of one call of `Job::operator()` on the executed job
and its pool. -/
structure ExecOut where
  numUnfinishedChildren : Nat
  bodyInvoked : Bool
  enqueuedChildren : List JobRef
  jobsLeftToPlay : Nat
  isPlayedBack : Bool
  playbackFinishedEnqueued : Bool
  onFinishedInvoked : Bool
  deriving Repr, DecidableEq

/-- One call of `Job::operator()` (lines 511-534) on the job at `r`.
If `m_function` is null, return immediately (line 512).  Otherwise set
`m_numUnfinishedChildren = 1` (line 513) and run the body; `childAdds`
abstracts how many `addChildJob` calls the body makes, each of which
increments the counter through `setParentJob`.  If the pool is in playback,
walk the recorded child list, adding one to the counter and enqueuing each
child, then decrement `numJobsLeftToPlay` and, on the last decrement,
enqueue the playback-finished job (lines 516-530).  Finally decrement the
counter; `onFinished` is invoked exactly when the decremented value was 1
(lines 532-533). -/
def jobExecOnce (m : JobMemoryS) (cfuel : Nat) (r : JobRef) (childAdds : Nat) : ExecOut :=
  let j := getJob m r
  let pool := getPool m j.m_poolNumber
  if j.m_function = none then
    ⟨j.m_numUnfinishedChildren, false, [], pool.numJobsLeftToPlay,
     pool.isPlayedBack, false, false⟩
  else
    let n := 1 + childAdds
    if pool.isPlayedBack then
      let cs := childChain m cfuel j.m_pFirstChild
      let numLeft := n + cs.length
      let fin := pool.numJobsLeftToPlay == 1
      ⟨numLeft - 1, true, cs, pool.numJobsLeftToPlay - 1,
       if fin then false else pool.isPlayedBack, fin, numLeft == 1⟩
    else
      ⟨n - 1, true, [], pool.numJobsLeftToPlay, pool.isPlayedBack, false, n == 1⟩

/-- C1 (amended): executing a Job whose function pointer is null does NOT
run the completion protocol: `operator()` returns at line 512 before
touching anything, so `m_numUnfinishedChildren` is left unchanged, no
recorded child is enqueued, the pool's playback counters are untouched and
`onFinished` is not invoked. -/
theorem nullFunction_job_skips_completion (m : JobMemoryS) (cfuel : Nat) (r : JobRef)
    (childAdds : Nat) (h : (getJob m r).m_function = none) :
    jobExecOnce m cfuel r childAdds =
      ⟨(getJob m r).m_numUnfinishedChildren, false, [],
       (getPool m (getJob m r).m_poolNumber).numJobsLeftToPlay,
       (getPool m (getJob m r).m_poolNumber).isPlayedBack, false, false⟩ := by
  simp [jobExecOnce, h]

/-- Memory holding one job with a null function and `m_numUnfinishedChildren
= 1`, the configuration the claim is about. -/
def oneNullJobMem : JobMemoryS :=
  ⟨[⟨1, [⟨true, 0, none, none, 1, none, none, none, none⟩], 0, false, none⟩], false⟩

/-- Counterexample to C1 as stated: the claim asserts that invoking
`job()` on a Job with the empty callable decrements
`m_numUnfinishedChildren` (here from 1 to 0) and, on reaching zero, runs
`onFinished`.  On this concrete input the code returns at line 512: the
counter stays 1 and `onFinished` is not invoked. -/
theorem nullFunction_claim_counterexample :
    (jobExecOnce oneNullJobMem 0 (0, 0) 0).numUnfinishedChildren = 1 ∧
    ¬ ((jobExecOnce oneNullJobMem 0 (0, 0) 0).onFinishedInvoked = true) := by
  decide

/-- Witness for C1 (amended) at the same concrete input. -/
theorem nullFunction_job_skips_completion_w :
    jobExecOnce oneNullJobMem 0 (0, 0) 0 =
      ⟨(getJob oneNullJobMem (0, 0)).m_numUnfinishedChildren, false, [],
       (getPool oneNullJobMem (getJob oneNullJobMem (0, 0)).m_poolNumber).numJobsLeftToPlay,
       (getPool oneNullJobMem (getJob oneNullJobMem (0, 0)).m_poolNumber).isPlayedBack,
       false, false⟩ :=
  nullFunction_job_skips_completion oneNullJobMem 0 (0, 0) 0 (by decide)

/-! ## Playback engine (`JobSystem::playBackPool`, lines 397-414, and the
playback branch of `Job::operator()`, lines 516-530)

The playback protocol is projected onto its counters: how many job bodies
run and how many times the playback-finished job is enqueued.  During
playback no links are written (`addChildJob` no-ops, claim C6), so the
memory is constant while the recorded chains are walked.

Two pieces of the per-job completion protocol are deliberately outside
this projection, and both make the claim, as stated over *every* recorded
pool, false — the counterexample below exhibits one failure; the proved
theorem is the amended claim, whose hypotheses make the omissions exact:

* `Job::onFinished` line 544 enqueues a persisting `m_onFinishedJob` with
  no playback guard.  A recording in which a non-root job registered a
  successor leaves that successor both in its parent's child list (line
  476 allocates it with the parent as parent) and in the predecessor's
  `m_onFinishedJob`, so during playback it is enqueued twice — once by
  the child walk (lines 518-523) and once by line 544 — and its body runs
  more than once.  The amended claim therefore requires every recorded
  job's `m_onFinishedJob` to be null (checked by `recForestAt`); then
  line 544 enqueues nothing for played jobs, and the rest of
  `onFinished` (lines 540-552) only touches per-job counters, the global
  job count and `m_available`, none of which the played pool's counters
  or the body count depend on.

* `operator()` line 517 re-reads `isPlayedBack`, which line 527 clears.
  A played job could in principle observe the cleared flag and skip the
  walk and the `numJobsLeftToPlay` decrement — but the flag is cleared
  only by the decrement that reaches zero, which requires all
  `next_index` enqueued jobs (including any candidate skipper) to have
  already passed line 525; so under the spanning-tree hypothesis no
  played job observes the cleared flag before its body and its decrement
  have happened, and the projection is exact. -/

/-- Worklist execution of a playback: each step takes the next enqueued
job; a null-function job returns at line 512 without touching anything;
otherwise its body runs (one invocation), its recorded children are
enqueued, and the pool's `numJobsLeftToPlay` is decremented, enqueuing the
playback-finished job when the pre-decrement value was 1.  Returns (number
of body invocations, number of times the playback-finished job was
enqueued).  Per the section comment, the line-544 successor enqueue and
the line-517 flag re-read are omitted; the theorem's hypotheses
(successor-free recording, spanning tree) are exactly what makes both
inert, and the counterexample uses a pool where both are inert as well. -/
def playLoop (m : JobMemoryS) (cfuel : Nat) :
    Nat → List JobRef → Nat → Nat → Nat → Nat × Nat
  | 0, _, _, ex, fi => (ex, fi)
  | _ + 1, [], _, ex, fi => (ex, fi)
  | fuel + 1, r :: rest, left, ex, fi =>
    if (getJob m r).m_function = none then
      playLoop m cfuel fuel rest left ex fi
    else
      playLoop m cfuel fuel (rest ++ childChain m cfuel (getJob m r).m_pFirstChild)
        (left - 1) (ex + 1) (if left = 1 then fi + 1 else fi)

/-- Shape of a recorded forest: `leafF` is the empty forest and
`consF c rest` is a tree whose children form the forest `c`, followed by
the forest `rest`. -/
inductive JobForest where
  | leafF : JobForest
  | consF : JobForest → JobForest → JobForest
  deriving Repr, DecidableEq

/-- Number of jobs in a recorded forest. -/
def sizeF : JobForest → Nat
  | .leafF => 0
  | .consF c rest => 1 + sizeF c + sizeF rest

/-- Concatenation of recorded forests. -/
def appendF : JobForest → JobForest → JobForest
  | .leafF, g => g
  | .consF c rest, g => .consF c (appendF rest g)

/-- The recorded links at the job references `queue` form the forest `f`:
each job has a (non-null) function, no recorded successor
(`m_onFinishedJob.isNone` — a persisting successor would be enqueued a
second time by line 544 during playback, which is why the amended claim
excludes such recordings), and its first-child/next-sibling chain
recursively forms its children forest. -/
def recForestAt (m : JobMemoryS) (cfuel : Nat) : JobForest → List JobRef → Bool
  | .leafF, [] => true
  | .leafF, _ :: _ => false
  | .consF _ _, [] => false
  | .consF c rest, r :: rs =>
      (getJob m r).m_function.isSome && (getJob m r).m_onFinishedJob.isNone &&
      recForestAt m cfuel c (childChain m cfuel (getJob m r).m_pFirstChild) &&
      recForestAt m cfuel rest rs

theorem sizeF_appendF : ∀ f g : JobForest, sizeF (appendF f g) = sizeF f + sizeF g := by
  intro f g
  induction f with
  | leafF => simp [appendF, sizeF]
  | consF c rest ihc ihr => simp [appendF, sizeF, ihr]; omega

theorem recForestAt_append (m : JobMemoryS) (cfuel : Nat) :
    ∀ (f₁ : JobForest) (q₁ : List JobRef) (f₂ : JobForest) (q₂ : List JobRef),
      recForestAt m cfuel f₁ q₁ = true → recForestAt m cfuel f₂ q₂ = true →
      recForestAt m cfuel (appendF f₁ f₂) (q₁ ++ q₂) = true := by
  intro f₁
  induction f₁ with
  | leafF =>
    intro q₁ f₂ q₂ h₁ h₂
    cases q₁ with
    | nil => simpa [appendF] using h₂
    | cons x xs => simp [recForestAt] at h₁
  | consF c rest ihc ihr =>
    intro q₁ f₂ q₂ h₁ h₂
    cases q₁ with
    | nil => simp [recForestAt] at h₁
    | cons r rs =>
      simp only [recForestAt, Bool.and_eq_true] at h₁
      obtain ⟨⟨⟨hfun, hofin⟩, hc⟩, hrest⟩ := h₁
      simp only [appendF, List.cons_append, recForestAt, Bool.and_eq_true]
      exact ⟨⟨⟨hfun, hofin⟩, hc⟩, ihr rs f₂ q₂ hrest h₂⟩

theorem playLoop_count (m : JobMemoryS) (cfuel : Nat) :
    ∀ (fuel : Nat) (f : JobForest) (queue : List JobRef) (left ex fi : Nat),
      recForestAt m cfuel f queue = true →
      sizeF f ≤ fuel →
      playLoop m cfuel fuel queue left ex fi =
        (ex + sizeF f, fi + (if 1 ≤ left ∧ left ≤ sizeF f then 1 else 0)) := by
  intro fuel
  induction fuel with
  | zero =>
    intro f queue left ex fi hf hs
    have hfleaf : f = JobForest.leafF := by
      cases f with
      | leafF => rfl
      | consF c rest => simp [sizeF] at hs
    subst hfleaf
    have hq : queue = [] := by
      cases queue with
      | nil => rfl
      | cons x xs => simp [recForestAt] at hf
    subst hq
    simp [playLoop, sizeF]
    omega
  | succ n ih =>
    intro f queue left ex fi hf hs
    cases queue with
    | nil =>
      have hfleaf : f = JobForest.leafF := by
        cases f with
        | leafF => rfl
        | consF c rest => simp [recForestAt] at hf
      subst hfleaf
      simp [playLoop, sizeF]
      omega
    | cons r rs =>
      cases f with
      | leafF => simp [recForestAt] at hf
      | consF c rest =>
        simp only [recForestAt, Bool.and_eq_true] at hf
        obtain ⟨⟨⟨hfun, hofin⟩, hc⟩, hrest⟩ := hf
        obtain ⟨v, hv⟩ := Option.isSome_iff_exists.mp hfun
        have happ : recForestAt m cfuel (appendF rest c)
            (rs ++ childChain m cfuel (getJob m r).m_pFirstChild) = true :=
          recForestAt_append m cfuel rest rs c _ hrest hc
        have hsz : sizeF (appendF rest c) ≤ n := by
          rw [sizeF_appendF]
          simp only [sizeF] at hs
          omega
        have hstep := ih (appendF rest c)
          (rs ++ childChain m cfuel (getJob m r).m_pFirstChild)
          (left - 1) (ex + 1) (if left = 1 then fi + 1 else fi) happ hsz
        simp only [playLoop, hv]
        rw [if_neg (by simp)]
        rw [hstep, sizeF_appendF]
        simp only [sizeF, Prod.mk.injEq]
        constructor
        · omega
        · split_ifs <;> omega

/-- `JobSystem::playBackPool` (lines 397-414), projected onto (number of
body invocations during the playback, number of enqueues of the
playback-finished job).  If the played pool's `jobIndex` is 0, the
completion job is enqueued immediately and nothing is played.  Otherwise
`numJobsLeftToPlay` is seeded with `jobIndex` (line 410) — modelled as the
`left` argument of `playLoop` — and the pool's slot 0 is enqueued to start
the playback (line 413).

Lines 398-402 first allocate the completion job in the *caller's* pool
(the current job's pool, or pool 0 from the main thread).  When the
caller's current job lives in the played pool itself, that allocation
increments the played pool's `jobIndex` before lines 405/410 read it, so
the seeded count is `next_index + 1` and the completion job can never
fire — another way the unamended claim fails.  The amended claim
restricts to playback started from outside the played pool; there the
allocation leaves the played pool untouched, and `m` here is the memory
after it. -/
def playBackPool (m : JobMemoryS) (pp fuel cfuel : Nat) : Nat × Nat :=
  if (getPool m pp).jobIndex = 0 then (0, 1)
  else playLoop m cfuel fuel [(pp, 0)] (getPool m pp).jobIndex 0 0

/-- C3 (amended): for a recorded pool with `jobIndex > 0` whose recorded
links form a single tree rooted at slot 0 spanning exactly its `jobIndex`
recorded jobs, none of which carries a recorded successor, and whose
playback is started from a context outside the played pool: playback
seeds `numJobsLeftToPlay` with `jobIndex` and enqueues slot 0, each
played job decrements the counter once, and after playback the
completion job has been enqueued exactly once while the number of
job-body invocations equals `jobIndex`, the number of jobs recorded in
the played pool.  The unamended claim — over *every* recorded pool with
`jobIndex > 0` — is refuted by `playback_claim_counterexample`. -/
theorem playback_runs_each_recorded_job_once (m : JobMemoryS) (pp fuel cfuel : Nat)
    (t : JobForest)
    (hrec : recForestAt m cfuel (JobForest.consF t JobForest.leafF) [(pp, 0)] = true)
    (hsize : sizeF (JobForest.consF t JobForest.leafF) = (getPool m pp).jobIndex)
    (hpos : 0 < (getPool m pp).jobIndex)
    (hfuel : (getPool m pp).jobIndex ≤ fuel) :
    playBackPool m pp fuel cfuel = ((getPool m pp).jobIndex, 1) := by
  have hne : ¬ ((getPool m pp).jobIndex = 0) := by omega
  rw [playBackPool, if_neg hne]
  rw [playLoop_count m cfuel fuel (JobForest.consF t JobForest.leafF) [(pp, 0)]
    (getPool m pp).jobIndex 0 0 hrec (by omega)]
  rw [hsize, if_pos ⟨hpos, Nat.le_refl _⟩]
  simp

/-- Recorded pool for the C3 witness: slot 0 is a root with children in
slots 1 and 2, all three with functions and no successors; `jobIndex = 3`. -/
def playDemoMem : JobMemoryS :=
  ⟨[⟨3,
     [⟨true, 0, some 0, none, 0, none, some (0, 1), some (0, 2), none⟩,
      ⟨true, 0, some 1, some (0, 0), 0, none, none, none, some (0, 2)⟩,
      ⟨true, 0, some 2, some (0, 0), 0, none, none, none, none⟩],
     0, false, none⟩], false⟩

/-- Witness for C3 on the concrete recorded pool `playDemoMem`. -/
theorem playback_runs_each_recorded_job_once_w :
    playBackPool playDemoMem 0 3 3 = ((getPool playDemoMem 0).jobIndex, 1) :=
  playback_runs_each_recorded_job_once playDemoMem 0 3 3
    (JobForest.consF JobForest.leafF (JobForest.consF JobForest.leafF JobForest.leafF))
    (by decide) (by decide) (by decide) (by decide)

/-- A reachable recorded pool with two roots: two parentless `addJob`
calls into the pool during recording leave two parentless jobs in slots 0
and 1 (`jobIndex = 2`), with functions, no links and no successors. -/
def twoRootMem : JobMemoryS :=
  ⟨[⟨2,
     [⟨true, 0, some 0, none, 0, none, none, none, none⟩,
      ⟨true, 0, some 1, none, 0, none, none, none, none⟩],
     0, false, none⟩], false⟩

/-- Counterexample to C3 as stated: `twoRootMem` is a recorded pool with
`next_index = 2 > 0`, so the claim predicts 2 body invocations and
exactly one enqueue of the completion job.  Tracing the source: line 413
enqueues only slot 0; its `operator()` runs one body, walks an empty
child list, and decrements `numJobsLeftToPlay` from 2 to 1 (line 525),
which is not 1, so the completion job is not enqueued; its `onFinished`
has no parent and no successor, so nothing else is ever enqueued.  Slot
1 is never played: one body invocation, zero completion enqueues, and
`isPlayedBack` remains set forever. -/
theorem playback_claim_counterexample :
    (getPool twoRootMem 0).jobIndex = 2 ∧
    playBackPool twoRootMem 0 2 2 = (1, 0) ∧
    ¬ (playBackPool twoRootMem 0 2 2 = ((getPool twoRootMem 0).jobIndex, 1)) := by
  decide

/-! ## The completion counter protocol (C4)

`m_numUnfinishedChildren` of a job `p` is written at exactly these places:
set to 1 at the start of `p`'s `operator()` (line 513); incremented once
per registered child by `setParentJob` (line 56) — issued either from
`p`'s own body (`addChildJob`, hence before `p`'s own decrement at line
532) or from the body of a registered, still-running child of `p`
(`onFinishedAddJob` line 476 allocates the successor with parent `p`),
which may happen *after* `p`'s own decrement — and once per recorded
child re-attached during playback (line 520, also before line 532);
decremented once by each finishing child through `childFinished` (line
85) and exactly once by `p` itself at line 532.  `onFinished` is called
from exactly two places — `childFinished` (line 86) and `operator()`
(line 533) — and both call it precisely when the fetched pre-decrement
value was 1 (the atomic decrement-to-zero rule).  A trace of the counter
is a list of these operations. -/

/-- One operation on `m_numUnfinishedChildren` after its initial store of
1: an increment (a child or successor registration through
`setParentJob`), a decrement by a finishing child (`childFinished`), or
the job's own final decrement (`operator()` line 532). -/
inductive COp where
  | inc : COp
  | childDec : COp
  | selfDec : COp
  deriving Repr, DecidableEq

/-- Run a trace against the counter, starting from value `v`: returns the
final counter value and how many times the decrement-to-zero rule fired
(i.e. how many times `onFinished` was invoked). -/
def runC : Nat → List COp → Nat × Nat
  | v, [] => (v, 0)
  | v, COp.inc :: rest => runC (v + 1) rest
  | v, COp.childDec :: rest =>
    let p := runC (v - 1) rest
    (p.1, (if v = 1 then 1 else 0) + p.2)
  | v, COp.selfDec :: rest =>
    let p := runC (v - 1) rest
    (p.1, (if v = 1 then 1 else 0) + p.2)

/-- The completion traces the code can produce, tracked by `s` = number of
registered but unfinished children and `afterSelf` = whether the job's own
line-532 decrement has already happened:
* a child decrements only after its registration (`childDec` needs
  `s ≠ 0`);
* the job's own decrement happens exactly once (`selfDec` flips
  `afterSelf`, and a complete trace ends with `afterSelf = true`);
* before the job's own decrement, increments are unconstrained (the job's
  body registers children and running children register successors);
* after the job's own decrement an increment can only be issued by
  `onFinishedAddJob` running in the body of a registered, still-unfinished
  child of this job (line 476 inherits this job as the successor's
  parent), so it requires `s ≠ 0`;
* the trace is complete: it ends when every registered child has finished
  (`s = 0`). -/
def validTrace : Nat → Bool → List COp → Bool
  | s, afterSelf, [] => s == 0 && afterSelf
  | s, afterSelf, COp.inc :: rest =>
      (if afterSelf then s != 0 else true) && validTrace (s + 1) afterSelf rest
  | s, afterSelf, COp.childDec :: rest => (s != 0) && validTrace (s - 1) afterSelf rest
  | s, afterSelf, COp.selfDec :: rest => !afterSelf && validTrace s true rest

theorem runC_validTrace_after : ∀ (ops : List COp) (s : Nat),
    validTrace s true ops = true →
    runC s ops = (0, if 1 ≤ s then 1 else 0) := by
  intro ops
  induction ops with
  | nil =>
    intro s h
    simp only [validTrace, Bool.and_eq_true, beq_iff_eq] at h
    rw [h.1]
    simp [runC]
  | cons op rest ih =>
    intro s h
    cases op with
    | inc =>
      simp only [validTrace, Bool.and_eq_true, bne_iff_ne, ne_eq, if_true] at h
      obtain ⟨hs, hrest⟩ := h
      rw [show runC s (COp.inc :: rest) = runC (s + 1) rest from rfl, ih (s + 1) hrest]
      have h1 : (1 ≤ s + 1) = True := by simp
      simp only [h1, if_true]
      have h2 : (1 ≤ s) = True := by simp; omega
      simp only [h2, if_true]
    | childDec =>
      simp only [validTrace, Bool.and_eq_true, bne_iff_ne, ne_eq] at h
      obtain ⟨hs, hrest⟩ := h
      simp only [runC]
      rw [ih (s - 1) hrest]
      simp only [Prod.mk.injEq, true_and]
      split_ifs <;> omega
    | selfDec =>
      simp only [validTrace, Bool.and_eq_true] at h
      simp at h

theorem runC_validTrace_before : ∀ (ops : List COp) (s : Nat),
    validTrace s false ops = true →
    runC (s + 1) ops = (0, 1) := by
  intro ops
  induction ops with
  | nil =>
    intro s h
    simp [validTrace] at h
  | cons op rest ih =>
    intro s h
    cases op with
    | inc =>
      simp only [validTrace, if_false, Bool.true_and] at h
      exact ih (s + 1) h
    | childDec =>
      simp only [validTrace, Bool.and_eq_true, bne_iff_ne, ne_eq] at h
      obtain ⟨hs, hrest⟩ := h
      simp only [runC]
      have hv : s + 1 - 1 = (s - 1) + 1 := by omega
      rw [hv, ih (s - 1) hrest]
      have hne : ¬ (s + 1 = 1) := by omega
      simp [hne]
    | selfDec =>
      simp only [validTrace, Bool.not_false, Bool.true_and] at h
      simp only [runC, Nat.add_sub_cancel]
      rw [runC_validTrace_after rest s h]
      simp only [Prod.mk.injEq, true_and]
      split_ifs <;> omega

/-- C4: `onFinished` is invoked exactly once per completion.  Over every
completion trace of `m_numUnfinishedChildren` that the code can produce —
starting at 1 (line 513), children decrementing only after their
registration, the job's own decrement (line 532) happening exactly once,
increments after that decrement issued only while some registered child
is still unfinished (the child whose `onFinishedAddJob` performs them),
and ending when every registered child has finished — the
decrement-to-zero rule, the only trigger of `onFinished` at its two call
sites (`childFinished` line 86 and `operator()` line 533), fires exactly
once, and the counter ends at 0.  In particular no second invocation can
occur between allocation and the zero-crossing. -/
theorem onFinished_fires_exactly_once_per_completion (ops : List COp)
    (hvalid : validTrace 0 false ops = true) :
    (runC 1 ops).2 = 1 ∧ (runC 1 ops).1 = 0 := by
  have h := runC_validTrace_before ops 0 hvalid
  rw [show (0 : Nat) + 1 = 1 from rfl] at h
  rw [h]
  exact ⟨rfl, rfl⟩

/-- Witness for C4 on a trace with a successor registration *after* the
job's own decrement: a child is registered during the body, the job
performs its line-532 decrement, the still-running child registers a
successor (incrementing the counter from its own worker), then both the
child and the successor finish. -/
theorem onFinished_fires_exactly_once_per_completion_w :
    (runC 1 [COp.inc, COp.selfDec, COp.inc, COp.childDec, COp.childDec]).2 = 1 ∧
    (runC 1 [COp.inc, COp.selfDec, COp.inc, COp.childDec, COp.childDec]).1 = 0 :=
  onFinished_fires_exactly_once_per_completion
    [COp.inc, COp.selfDec, COp.inc, COp.childDec, COp.childDec] (by decide)

/-! ## Frame lemmas for slot writes -/

theorem lset_oob {α : Type} : ∀ (l : List α) (i : Nat) (x : α), l.length ≤ i →
    l.set i x = l := by
  intro l
  induction l with
  | nil => intro i x _; cases i <;> rfl
  | cons a as ih =>
    intro i x h
    cases i with
    | zero => simp at h
    | succ i' =>
      have h' : as.length ≤ i' := by simpa using h
      simp [List.set, ih i' x h']

theorem getPool_setJob (m : JobMemoryS) (r : JobRef) (j : JobRec) (pn : Nat) :
    getPool (setJob m r j) pn =
      if pn = r.1 ∧ r.1 < m.pools.length
        then { getPool m r.1 with slots := (getPool m r.1).slots.set r.2 j }
        else getPool m pn := by
  by_cases h1 : pn = r.1
  · by_cases h2 : r.1 < m.pools.length
    · rw [if_pos ⟨h1, h2⟩]
      simp only [getPool, setJob]
      rw [h1]
      exact lset_getD_self m.pools r.1 _ _ h2
    · rw [if_neg (by tauto)]
      simp only [getPool, setJob]
      rw [lset_oob m.pools r.1 _ (by omega)]
  · rw [if_neg (by tauto)]
    simp only [getPool, setJob]
    exact lset_getD_ne m.pools r.1 pn _ _ (fun hh => h1 hh.symm)

theorem setJob_pools_length (m : JobMemoryS) (r : JobRef) (j : JobRec) :
    (setJob m r j).pools.length = m.pools.length := by
  simp [setJob]

theorem setJob_freshAvail (m : JobMemoryS) (r : JobRef) (j : JobRec) :
    (setJob m r j).freshAvail = m.freshAvail := rfl

theorem setJob_slots_length (m : JobMemoryS) (r : JobRef) (j : JobRec) (pn : Nat) :
    (getPool (setJob m r j) pn).slots.length = (getPool m pn).slots.length := by
  rw [getPool_setJob]
  split_ifs with h
  · simp [h.1]
  · rfl

theorem validRef_setJob (m : JobMemoryS) (r : JobRef) (j : JobRec) (q : JobRef) :
    validRef (setJob m r j) q ↔ validRef m q := by
  unfold validRef
  rw [setJob_pools_length, setJob_slots_length]

/-- Master lemma: a `setJob` write changes exactly the written slot (when
the reference is valid) and nothing else. -/
theorem getJob_setJob (m : JobMemoryS) (r : JobRef) (j : JobRec) (q : JobRef) :
    getJob (setJob m r j) q = if q = r ∧ validRef m r then j else getJob m q := by
  by_cases hq : q = r
  · subst hq
    by_cases hv : validRef m q
    · rw [if_pos ⟨rfl, hv⟩]
      obtain ⟨h1, h2⟩ := hv
      have hgp : getPool (setJob m q j) q.1
          = { getPool m q.1 with slots := (getPool m q.1).slots.set q.2 j } := by
        rw [getPool_setJob, if_pos (⟨rfl, h1⟩ : q.1 = q.1 ∧ q.1 < m.pools.length)]
      simp only [getJob]
      rw [hgp]
      exact lset_getD_self _ q.2 j _ h2
    · rw [if_neg (by tauto)]
      by_cases h1 : q.1 < m.pools.length
      · have h2 : (getPool m q.1).slots.length ≤ q.2 := by
          by_contra hcon
          exact hv ⟨h1, by omega⟩
        have hgp : getPool (setJob m q j) q.1
            = { getPool m q.1 with slots := (getPool m q.1).slots.set q.2 j } := by
          rw [getPool_setJob, if_pos (⟨rfl, h1⟩ : q.1 = q.1 ∧ q.1 < m.pools.length)]
        simp only [getJob]
        rw [hgp, lset_oob _ q.2 j h2]
        rfl
      · have hgp : getPool (setJob m q j) q.1 = getPool m q.1 := by
          rw [getPool_setJob, if_neg (by tauto)]
        simp only [getJob]
        rw [hgp]
        rfl
  · rw [if_neg (by tauto)]
    by_cases h1 : q.1 = r.1
    · have hq2 : q.2 ≠ r.2 := by
        intro h2
        apply hq
        cases q; cases r; simp_all
      by_cases hp : r.1 < m.pools.length
      · have hgp : getPool (setJob m r j) q.1
            = { getPool m r.1 with slots := (getPool m r.1).slots.set r.2 j } := by
          rw [getPool_setJob, if_pos (⟨h1, hp⟩ : q.1 = r.1 ∧ r.1 < m.pools.length)]
        simp only [getJob]
        rw [hgp]
        have : ((getPool m r.1).slots.set r.2 j).getD q.2 (freshJob m.freshAvail)
            = (getPool m r.1).slots.getD q.2 (freshJob m.freshAvail) :=
          lset_getD_ne _ r.2 q.2 j _ (fun hh => hq2 hh.symm)
        rw [show (setJob m r j).freshAvail = m.freshAvail from rfl]
        rw [this, h1]
      · have hgp : getPool (setJob m r j) q.1 = getPool m q.1 := by
          rw [getPool_setJob, if_neg (by tauto)]
        simp only [getJob]
        rw [hgp]
        rfl
    · have hgp : getPool (setJob m r j) q.1 = getPool m q.1 := by
        rw [getPool_setJob, if_neg (by tauto)]
      simp only [getJob]
      rw [hgp]
      rfl

theorem getJob_setJob_self (m : JobMemoryS) (r : JobRef) (j : JobRec) (hv : validRef m r) :
    getJob (setJob m r j) r = j := by
  rw [getJob_setJob, if_pos ⟨rfl, hv⟩]

theorem getJob_setJob_ne (m : JobMemoryS) (r : JobRef) (j : JobRec) (q : JobRef)
    (h : q ≠ r) : getJob (setJob m r j) q = getJob m q := by
  rw [getJob_setJob, if_neg (by tauto)]

/-- `setParentJob` when the parent has no children yet (the `else` branch of
lines 57-64): the child gets the parent pointer; the parent gets its
counter incremented and both child-list ends pointing at the child. -/
theorem setParentJob_eq_nochild (m : JobMemoryS) (c p : JobRef)
    (hcp : c ≠ p) (hvc : validRef m c) (hvp : validRef m p)
    (hfc : (getJob m p).m_pFirstChild = none) :
    setParentJob m c p =
      setJob
        (setJob
          (setJob (setJob m c ({ getJob m c with m_parentJob := some p })) p
            ({ getJob m p with
               m_numUnfinishedChildren := (getJob m p).m_numUnfinishedChildren + 1 }))
          p
          ({ getJob m p with
             m_numUnfinishedChildren := (getJob m p).m_numUnfinishedChildren + 1,
             m_pFirstChild := some c }))
        p
        ({ getJob m p with
           m_numUnfinishedChildren := (getJob m p).m_numUnfinishedChildren + 1,
           m_pFirstChild := some c, m_pLastChild := some c }) := by
  have hpc : p ≠ c := fun h => hcp h.symm
  have hvp1 : validRef (setJob m c ({ getJob m c with m_parentJob := some p })) p :=
    (validRef_setJob _ _ _ _).mpr hvp
  have h1p : getJob (setJob m c ({ getJob m c with m_parentJob := some p })) p
      = getJob m p := getJob_setJob_ne _ _ _ _ hpc
  have h2p : getJob
      (setJob (setJob m c ({ getJob m c with m_parentJob := some p })) p
        ({ getJob m p with
           m_numUnfinishedChildren := (getJob m p).m_numUnfinishedChildren + 1 })) p
      = ({ getJob m p with
           m_numUnfinishedChildren := (getJob m p).m_numUnfinishedChildren + 1 }) :=
    getJob_setJob_self _ _ _ hvp1
  have hvp2 : validRef
      (setJob (setJob m c ({ getJob m c with m_parentJob := some p })) p
        ({ getJob m p with
           m_numUnfinishedChildren := (getJob m p).m_numUnfinishedChildren + 1 })) p :=
    (validRef_setJob _ _ _ _).mpr hvp1
  simp only [setParentJob]
  rw [h1p, h2p]
  split
  all_goals first
    | (rename_i x heq
       have h' : (getJob m p).m_pFirstChild = some x := heq
       rw [hfc] at h'
       simp at h')
    | (rw [getJob_setJob_self _ _ _ hvp2])

/-- `setParentJob` when the parent already has children (the `then` branch
of lines 57-60): the child gets the parent pointer; the parent's counter is
incremented; the old last child gets its sibling pointer set to the new
child, which becomes the parent's last child. -/
theorem setParentJob_eq_append (m : JobMemoryS) (c p l fc : JobRef)
    (hcp : c ≠ p) (hvp : validRef m p)
    (hlp : l ≠ p) (hlc : l ≠ c)
    (hfc : (getJob m p).m_pFirstChild = some fc)
    (hlast : (getJob m p).m_pLastChild = some l) :
    setParentJob m c p =
      setJob
        (setJob
          (setJob (setJob m c ({ getJob m c with m_parentJob := some p })) p
            ({ getJob m p with
               m_numUnfinishedChildren := (getJob m p).m_numUnfinishedChildren + 1 }))
          l
          ({ getJob m l with m_pNextSibling := some c }))
        p
        ({ getJob m p with
           m_numUnfinishedChildren := (getJob m p).m_numUnfinishedChildren + 1,
           m_pLastChild := some c }) := by
  have hpc : p ≠ c := fun h => hcp h.symm
  have hpl : p ≠ l := fun h => hlp h.symm
  have hvp1 : validRef (setJob m c ({ getJob m c with m_parentJob := some p })) p :=
    (validRef_setJob _ _ _ _).mpr hvp
  have h1p : getJob (setJob m c ({ getJob m c with m_parentJob := some p })) p
      = getJob m p := getJob_setJob_ne _ _ _ _ hpc
  have h2p : getJob
      (setJob (setJob m c ({ getJob m c with m_parentJob := some p })) p
        ({ getJob m p with
           m_numUnfinishedChildren := (getJob m p).m_numUnfinishedChildren + 1 })) p
      = ({ getJob m p with
           m_numUnfinishedChildren := (getJob m p).m_numUnfinishedChildren + 1 }) :=
    getJob_setJob_self _ _ _ hvp1
  have h2l : getJob
      (setJob (setJob m c ({ getJob m c with m_parentJob := some p })) p
        ({ getJob m p with
           m_numUnfinishedChildren := (getJob m p).m_numUnfinishedChildren + 1 })) l
      = getJob m l := by
    rw [getJob_setJob_ne _ _ _ _ hlp, getJob_setJob_ne _ _ _ _ hlc]
  have h3p : getJob
      (setJob
        (setJob (setJob m c ({ getJob m c with m_parentJob := some p })) p
          ({ getJob m p with
             m_numUnfinishedChildren := (getJob m p).m_numUnfinishedChildren + 1 }))
        l ({ getJob m l with m_pNextSibling := some c })) p
      = ({ getJob m p with
           m_numUnfinishedChildren := (getJob m p).m_numUnfinishedChildren + 1 }) := by
    rw [getJob_setJob_ne _ _ _ _ hpl, h2p]
  simp only [setParentJob]
  rw [h1p, h2p]
  split
  · rename_i x heq
    split
    · rename_i y heq2
      have h'l : (getJob m p).m_pLastChild = some y := heq2
      rw [hlast] at h'l
      injection h'l with hy
      subst hy
      rw [h2l, h3p]
    · rename_i heq2
      have h'l : (getJob m p).m_pLastChild = none := heq2
      rw [hlast] at h'l
      simp at h'l
  · rename_i heq
    have h' : (getJob m p).m_pFirstChild = none := heq
    rw [hfc] at h'
    simp at h'

theorem getPool_setPool_self (m : JobMemoryS) (pn : Nat) (p : JobPool)
    (h : pn < m.pools.length) : getPool (setPool m pn p) pn = p := by
  simp only [getPool, setPool]
  exact lset_getD_self m.pools pn p _ h

theorem getPool_setPool_ne (m : JobMemoryS) (pn : Nat) (p : JobPool) (q : Nat)
    (h : q ≠ pn) : getPool (setPool m pn p) q = getPool m q := by
  simp only [getPool, setPool]
  exact lset_getD_ne m.pools pn q p _ (fun hh => h hh.symm)

theorem setPool_pools_length (m : JobMemoryS) (pn : Nat) (p : JobPool) :
    (setPool m pn p).pools.length = m.pools.length := by
  simp [setPool]

theorem setPool_freshAvail (m : JobMemoryS) (pn : Nat) (p : JobPool) :
    (setPool m pn p).freshAvail = m.freshAvail := rfl

/-- A `setPool` that keeps the slot list unchanged does not change any job
nor any reference validity. -/
theorem getJob_setPool_keep (m : JobMemoryS) (pn : Nat) (p : JobPool)
    (hpn : pn < m.pools.length)
    (hslots : p.slots = (getPool m pn).slots) (q : JobRef) :
    getJob (setPool m pn p) q = getJob m q := by
  simp only [getJob, setPool_freshAvail]
  by_cases h1 : q.1 = pn
  · rw [h1, getPool_setPool_self m pn p hpn, hslots]
  · rw [getPool_setPool_ne m pn p q.1 h1]

theorem validRef_setPool_keep (m : JobMemoryS) (pn : Nat) (p : JobPool)
    (hpn : pn < m.pools.length)
    (hslots : p.slots = (getPool m pn).slots) (q : JobRef) :
    validRef (setPool m pn p) q ↔ validRef m q := by
  unfold validRef
  rw [setPool_pools_length]
  by_cases h1 : q.1 = pn
  · rw [h1, getPool_setPool_self m pn p hpn, hslots]
  · rw [getPool_setPool_ne m pn p q.1 h1]

theorem getNextJob_eq_nogrow (m : JobMemoryS) (pn : Nat)
    (hpn : pn < m.pools.length)
    (hlt : (getPool m pn).jobIndex < (getPool m pn).slots.length) :
    getNextJob m pn =
      (setPool m pn ({ getPool m pn with jobIndex := (getPool m pn).jobIndex + 1 }),
       (getPool m pn).jobIndex) := by
  have hnot : ¬ (m.pools.length ≤ pn) := by omega
  have hlen : (getPool (setPool m pn ({ getPool m pn with
      jobIndex := (getPool m pn).jobIndex + 1 })) pn).slots.length
      = (getPool m pn).slots.length := by
    rw [getPool_setPool_self _ _ _ hpn]
  simp only [getNextJob]
  rw [if_neg hnot, if_neg (by rw [hlen]; omega)]

theorem getNextJob_eq_grow (m : JobMemoryS) (pn : Nat)
    (hpn : pn < m.pools.length)
    (hge : (getPool m pn).slots.length ≤ (getPool m pn).jobIndex) :
    getNextJob m pn =
      (setPool (setPool m pn ({ getPool m pn with
          jobIndex := (getPool m pn).jobIndex + 1 })) pn
        ({ getPool m pn with
           jobIndex := (getPool m pn).jobIndex + 1,
           slots := (getPool m pn).slots ++ List.replicate listLength (freshJob m.freshAvail) }),
       (getPool m pn).jobIndex) := by
  have hnot : ¬ (m.pools.length ≤ pn) := by omega
  have hbump : getPool (setPool m pn ({ getPool m pn with
      jobIndex := (getPool m pn).jobIndex + 1 })) pn
      = { getPool m pn with jobIndex := (getPool m pn).jobIndex + 1 } :=
    getPool_setPool_self _ _ _ hpn
  have hlen : (getPool (setPool m pn ({ getPool m pn with
      jobIndex := (getPool m pn).jobIndex + 1 })) pn).slots.length
      = (getPool m pn).slots.length := by
    rw [hbump]
  simp only [getNextJob]
  rw [if_neg hnot, if_pos (by rw [hlen]; omega)]
  rw [hbump]
  rfl

/-- Preservation through `getNextJob` on an existing pool whose allocation
index has not outrun its capacity: every job is unchanged, validity is
preserved, the reserved index is the old `jobIndex` (incremented in the
pool), and after the conditional segment growth the reserved index is
strictly inside the slot list. -/
theorem getNextJob_pres (m : JobMemoryS) (pn : Nat) (q : JobRef)
    (hpn : pn < m.pools.length)
    (hq : validRef m q)
    (hidx : (getPool m pn).jobIndex ≤ (getPool m pn).slots.length) :
    getJob (getNextJob m pn).1 q = getJob m q ∧
    validRef (getNextJob m pn).1 q ∧
    (getNextJob m pn).2 = (getPool m pn).jobIndex ∧
    pn < (getNextJob m pn).1.pools.length ∧
    (getPool m pn).jobIndex < (getPool (getNextJob m pn).1 pn).slots.length ∧
    (getNextJob m pn).1.freshAvail = m.freshAvail ∧
    (getPool (getNextJob m pn).1 pn).jobIndex = (getPool m pn).jobIndex + 1 := by
  have hrep : (List.replicate listLength (freshJob m.freshAvail)).length = 4096 := by
    rw [List.length_replicate]
    rfl
  by_cases hgrow : (getPool m pn).slots.length ≤ (getPool m pn).jobIndex
  · rw [getNextJob_eq_grow m pn hpn hgrow]
    have hpn1 : pn < (setPool m pn ({ getPool m pn with
        jobIndex := (getPool m pn).jobIndex + 1 })).pools.length := by
      rw [setPool_pools_length]; exact hpn
    have hGget : getPool (setPool (setPool m pn ({ getPool m pn with
        jobIndex := (getPool m pn).jobIndex + 1 })) pn
        ({ getPool m pn with
           jobIndex := (getPool m pn).jobIndex + 1,
           slots := (getPool m pn).slots ++
             List.replicate listLength (freshJob m.freshAvail) })) pn
        = ({ getPool m pn with
             jobIndex := (getPool m pn).jobIndex + 1,
             slots := (getPool m pn).slots ++
               List.replicate listLength (freshJob m.freshAvail) }) :=
      getPool_setPool_self _ _ _ hpn1
    refine ⟨?_, ?_, rfl, ?_, ?_, ?_, ?_⟩
    · show getJob (setPool (setPool m pn ({ getPool m pn with
          jobIndex := (getPool m pn).jobIndex + 1 })) pn
          ({ getPool m pn with
             jobIndex := (getPool m pn).jobIndex + 1,
             slots := (getPool m pn).slots ++
               List.replicate listLength (freshJob m.freshAvail) })) q = getJob m q
      simp only [getJob, setPool_freshAvail]
      by_cases h1 : q.1 = pn
      · rw [h1, hGget]
        have hq2 : q.2 < (getPool m pn).slots.length := h1 ▸ hq.2
        exact lappend_getD_left _ _ q.2 _ hq2
      · rw [getPool_setPool_ne _ _ _ _ h1, getPool_setPool_ne _ _ _ _ h1]
    · show validRef (setPool (setPool m pn ({ getPool m pn with
          jobIndex := (getPool m pn).jobIndex + 1 })) pn
          ({ getPool m pn with
             jobIndex := (getPool m pn).jobIndex + 1,
             slots := (getPool m pn).slots ++
               List.replicate listLength (freshJob m.freshAvail) })) q
      unfold validRef
      rw [setPool_pools_length, setPool_pools_length]
      refine ⟨hq.1, ?_⟩
      by_cases h1 : q.1 = pn
      · rw [h1, hGget]
        have hq2 : q.2 < (getPool m pn).slots.length := h1 ▸ hq.2
        show q.2 < ((getPool m pn).slots ++
          List.replicate listLength (freshJob m.freshAvail)).length
        rw [List.length_append, hrep]
        omega
      · rw [getPool_setPool_ne _ _ _ _ h1, getPool_setPool_ne _ _ _ _ h1]
        exact hq.2
    · show pn < (setPool (setPool m pn ({ getPool m pn with
          jobIndex := (getPool m pn).jobIndex + 1 })) pn
          ({ getPool m pn with
             jobIndex := (getPool m pn).jobIndex + 1,
             slots := (getPool m pn).slots ++
               List.replicate listLength (freshJob m.freshAvail) })).pools.length
      rw [setPool_pools_length, setPool_pools_length]
      exact hpn
    · show (getPool m pn).jobIndex < (getPool (setPool (setPool m pn ({ getPool m pn with
          jobIndex := (getPool m pn).jobIndex + 1 })) pn
          ({ getPool m pn with
             jobIndex := (getPool m pn).jobIndex + 1,
             slots := (getPool m pn).slots ++
               List.replicate listLength (freshJob m.freshAvail) })) pn).slots.length
      rw [hGget]
      show (getPool m pn).jobIndex < ((getPool m pn).slots ++
        List.replicate listLength (freshJob m.freshAvail)).length
      rw [List.length_append, hrep]
      omega
    · show (setPool (setPool m pn ({ getPool m pn with
          jobIndex := (getPool m pn).jobIndex + 1 })) pn
          ({ getPool m pn with
             jobIndex := (getPool m pn).jobIndex + 1,
             slots := (getPool m pn).slots ++
               List.replicate listLength (freshJob m.freshAvail) })).freshAvail = m.freshAvail
      rfl
    · show (getPool (setPool (setPool m pn ({ getPool m pn with
          jobIndex := (getPool m pn).jobIndex + 1 })) pn
          ({ getPool m pn with
             jobIndex := (getPool m pn).jobIndex + 1,
             slots := (getPool m pn).slots ++
               List.replicate listLength (freshJob m.freshAvail) })) pn).jobIndex
          = (getPool m pn).jobIndex + 1
      rw [hGget]
  · have hlt : (getPool m pn).jobIndex < (getPool m pn).slots.length := by omega
    rw [getNextJob_eq_nogrow m pn hpn hlt]
    refine ⟨?_, ?_, rfl, ?_, ?_, ?_, ?_⟩
    · show getJob (setPool m pn ({ getPool m pn with
          jobIndex := (getPool m pn).jobIndex + 1 })) q = getJob m q
      exact getJob_setPool_keep m pn
        ({ getPool m pn with jobIndex := (getPool m pn).jobIndex + 1 }) hpn rfl q
    · show validRef (setPool m pn ({ getPool m pn with
          jobIndex := (getPool m pn).jobIndex + 1 })) q
      exact (validRef_setPool_keep m pn
        ({ getPool m pn with jobIndex := (getPool m pn).jobIndex + 1 }) hpn rfl q).mpr hq
    · show pn < (setPool m pn ({ getPool m pn with
          jobIndex := (getPool m pn).jobIndex + 1 })).pools.length
      rw [setPool_pools_length]
      exact hpn
    · show (getPool m pn).jobIndex < (getPool (setPool m pn ({ getPool m pn with
          jobIndex := (getPool m pn).jobIndex + 1 })) pn).slots.length
      rw [getPool_setPool_self _ _ _ hpn]
      show (getPool m pn).jobIndex < (getPool m pn).slots.length
      omega
    · show (setPool m pn ({ getPool m pn with
          jobIndex := (getPool m pn).jobIndex + 1 })).freshAvail = m.freshAvail
      rfl
    · show (getPool (setPool m pn ({ getPool m pn with
          jobIndex := (getPool m pn).jobIndex + 1 })) pn).jobIndex
          = (getPool m pn).jobIndex + 1
      rw [getPool_setPool_self _ _ _ hpn]

/-- `allocateJob` with a parent whose child list is empty: the returned job
carries the parent pointer, the parent's `m_numUnfinishedChildren` grows by
one and both its child-list ends point at the new job; every other job is
untouched. -/
theorem allocateJob_parent_nochild (p : JobRef) : ∀ (fuel : Nat) (m : JobMemoryS)
    (pn : Nat) (m₁ : JobMemoryS) (r : JobRef),
    allocateJob fuel m (some p) pn = some (m₁, r) →
    pn < m.pools.length →
    (getPool m pn).jobIndex ≤ (getPool m pn).slots.length →
    validRef m p →
    r ≠ p →
    (getJob m p).m_pFirstChild = none →
    validRef m₁ r ∧ validRef m₁ p ∧
    (getJob m₁ r).m_parentJob = some p ∧
    (getJob m₁ p).m_numUnfinishedChildren = (getJob m p).m_numUnfinishedChildren + 1 ∧
    (getJob m₁ p).m_pFirstChild = some r ∧
    (getJob m₁ p).m_pLastChild = some r ∧
    (∀ q, q ≠ r → q ≠ p → validRef m q → getJob m₁ q = getJob m q ∧ validRef m₁ q) ∧
    (∀ q, validRef m q → validRef m₁ q) := by
  intro fuel
  induction fuel with
  | zero =>
    intro m pn m₁ r halloc
    simp [allocateJob] at halloc
  | succ n ih =>
    intro m pn m₁ r halloc hpn hidx hvp hrp hfc
    obtain ⟨hJg, hVg, hIdx2, hPn2, hSlt, hFa, hJI⟩ := getNextJob_pres m pn p hpn hvp hidx
    simp only [allocateJob] at halloc
    split at halloc
    · rename_i havail
      injection halloc with hpair
      injection hpair with hm hr
      subst hm
      subst hr
      have hprr : p ≠ (pn, (getNextJob m pn).2) := fun h => hrp h.symm
      have hvrr : validRef (getNextJob m pn).1 (pn, (getNextJob m pn).2) := by
        refine ⟨hPn2, ?_⟩
        rw [hIdx2]
        exact hSlt
      have hv2rr : validRef (setJob (getNextJob m pn).1 (pn, (getNextJob m pn).2)
          ({ getJob (getNextJob m pn).1 (pn, (getNextJob m pn).2) with
             m_poolNumber := pn, m_onFinishedJob := none, m_pFirstChild := none,
             m_pLastChild := none, m_pNextSibling := none }))
          (pn, (getNextJob m pn).2) :=
        (validRef_setJob _ _ _ _).mpr hvrr
      have hv2p : validRef (setJob (getNextJob m pn).1 (pn, (getNextJob m pn).2)
          ({ getJob (getNextJob m pn).1 (pn, (getNextJob m pn).2) with
             m_poolNumber := pn, m_onFinishedJob := none, m_pFirstChild := none,
             m_pLastChild := none, m_pNextSibling := none })) p :=
        (validRef_setJob _ _ _ _).mpr hVg
      have hJ2p : getJob (setJob (getNextJob m pn).1 (pn, (getNextJob m pn).2)
          ({ getJob (getNextJob m pn).1 (pn, (getNextJob m pn).2) with
             m_poolNumber := pn, m_onFinishedJob := none, m_pFirstChild := none,
             m_pLastChild := none, m_pNextSibling := none })) p = getJob m p := by
        rw [getJob_setJob_ne _ _ _ _ hprr, hJg]
      have hfc2 : (getJob (setJob (getNextJob m pn).1 (pn, (getNextJob m pn).2)
          ({ getJob (getNextJob m pn).1 (pn, (getNextJob m pn).2) with
             m_poolNumber := pn, m_onFinishedJob := none, m_pFirstChild := none,
             m_pLastChild := none, m_pNextSibling := none })) p).m_pFirstChild = none := by
        rw [hJ2p]
        exact hfc
      rw [setParentJob_eq_nochild _ _ _ hrp hv2rr hv2p hfc2]
      set M₂ := setJob (getNextJob m pn).1 (pn, (getNextJob m pn).2)
          ({ getJob (getNextJob m pn).1 (pn, (getNextJob m pn).2) with
             m_poolNumber := pn, m_onFinishedJob := none, m_pFirstChild := none,
             m_pLastChild := none, m_pNextSibling := none }) with hM₂def
      set rr : JobRef := (pn, (getNextJob m pn).2) with hrrdef
      set J1 := { getJob M₂ rr with m_parentJob := some p } with hJ1def
      set P2 := { getJob M₂ p with
        m_numUnfinishedChildren := (getJob M₂ p).m_numUnfinishedChildren + 1 } with hP2def
      set P3 := { getJob M₂ p with
        m_numUnfinishedChildren := (getJob M₂ p).m_numUnfinishedChildren + 1,
        m_pFirstChild := some rr } with hP3def
      set P4 := { getJob M₂ p with
        m_numUnfinishedChildren := (getJob M₂ p).m_numUnfinishedChildren + 1,
        m_pFirstChild := some rr, m_pLastChild := some rr } with hP4def
      have hvA : ∀ q, validRef (setJob M₂ rr J1) q ↔ validRef M₂ q :=
        fun q => validRef_setJob _ _ _ q
      have hvB : ∀ q, validRef (setJob (setJob M₂ rr J1) p P2) q
          ↔ validRef M₂ q := fun q => (validRef_setJob _ _ _ q).trans (hvA q)
      have hvC : ∀ q, validRef (setJob (setJob (setJob M₂ rr J1) p P2) p P3) q
          ↔ validRef M₂ q := fun q => (validRef_setJob _ _ _ q).trans (hvB q)
      have hvD : ∀ q, validRef (setJob (setJob (setJob (setJob M₂ rr J1) p P2) p P3) p P4) q
          ↔ validRef M₂ q := fun q => (validRef_setJob _ _ _ q).trans (hvC q)
      have hfinp : getJob (setJob (setJob (setJob (setJob M₂ rr J1) p P2) p P3) p P4) p
          = P4 := getJob_setJob_self _ _ _ ((hvC p).mpr hv2p)
      have hfinr : getJob (setJob (setJob (setJob (setJob M₂ rr J1) p P2) p P3) p P4) rr
          = J1 := by
        rw [getJob_setJob_ne _ _ _ _ hrp, getJob_setJob_ne _ _ _ _ hrp,
          getJob_setJob_ne _ _ _ _ hrp]
        exact getJob_setJob_self _ _ _ hv2rr
      refine ⟨(hvD rr).mpr hv2rr, (hvD p).mpr hv2p, ?_, ?_, ?_, ?_, ?_, ?_⟩
      · rw [hfinr, hJ1def]
      · rw [hfinp, hP4def]
        show (getJob M₂ p).m_numUnfinishedChildren + 1
          = (getJob m p).m_numUnfinishedChildren + 1
        rw [hJ2p]
      · rw [hfinp, hP4def]
      · rw [hfinp, hP4def]
      · intro q hqr hqp hvq
        have hq2 : validRef M₂ q := by
          rw [hM₂def, validRef_setJob]
          exact (getNextJob_pres m pn q hpn hvq hidx).2.1
        have hJ2q : getJob M₂ q = getJob m q := by
          rw [hM₂def, getJob_setJob_ne _ _ _ _ hqr,
            (getNextJob_pres m pn q hpn hvq hidx).1]
        constructor
        · rw [getJob_setJob_ne _ _ _ _ hqp, getJob_setJob_ne _ _ _ _ hqp,
            getJob_setJob_ne _ _ _ _ hqp, getJob_setJob_ne _ _ _ _ hqr]
          exact hJ2q
        · exact (hvD q).mpr hq2
      · intro q hvq
        refine (hvD q).mpr ?_
        rw [hM₂def, validRef_setJob]
        exact (getNextJob_pres m pn q hpn hvq hidx).2.1
    · rename_i havail
      have hpn' : pn < (getNextJob m pn).1.pools.length := hPn2
      have hidx' : (getPool (getNextJob m pn).1 pn).jobIndex
          ≤ (getPool (getNextJob m pn).1 pn).slots.length := by
        rw [hJI]
        omega
      have hfc' : (getJob (getNextJob m pn).1 p).m_pFirstChild = none := by
        rw [hJg]; exact hfc
      obtain ⟨c1, c2, c3, c4, c5, c6, c7, c8⟩ :=
        ih (getNextJob m pn).1 pn m₁ r halloc hpn' hidx' hVg hrp hfc'
      refine ⟨c1, c2, c3, ?_, c5, c6, ?_, ?_⟩
      · rw [c4, hJg]
      · intro q hqr hqp hvq
        obtain ⟨d1, d2⟩ := c7 q hqr hqp (getNextJob_pres m pn q hpn hvq hidx).2.1
        exact ⟨d1.trans (getNextJob_pres m pn q hpn hvq hidx).1, d2⟩
      · intro q hvq
        exact c8 q (getNextJob_pres m pn q hpn hvq hidx).2.1

/-- `allocateJob` with a parent that already has children: the returned job
carries the parent pointer, the parent's counter grows by one, its first
child is unchanged, its last child becomes the new job, and the previous
last child's sibling pointer now points at the new job; every other job is
untouched. -/
theorem allocateJob_parent_append (p fc l : JobRef) : ∀ (fuel : Nat) (m : JobMemoryS)
    (pn : Nat) (m₁ : JobMemoryS) (r : JobRef),
    allocateJob fuel m (some p) pn = some (m₁, r) →
    pn < m.pools.length →
    (getPool m pn).jobIndex ≤ (getPool m pn).slots.length →
    validRef m p →
    r ≠ p →
    (getJob m p).m_pFirstChild = some fc →
    (getJob m p).m_pLastChild = some l →
    l ≠ r → l ≠ p → validRef m l →
    validRef m₁ r ∧ validRef m₁ p ∧
    (getJob m₁ r).m_parentJob = some p ∧
    (getJob m₁ p).m_numUnfinishedChildren = (getJob m p).m_numUnfinishedChildren + 1 ∧
    (getJob m₁ p).m_pFirstChild = some fc ∧
    (getJob m₁ p).m_pLastChild = some r ∧
    (getJob m₁ l).m_pNextSibling = some r ∧
    (∀ q, q ≠ r → q ≠ p → q ≠ l → validRef m q → getJob m₁ q = getJob m q ∧ validRef m₁ q) ∧
    (∀ q, validRef m q → validRef m₁ q) := by
  intro fuel
  induction fuel with
  | zero =>
    intro m pn m₁ r halloc
    simp [allocateJob] at halloc
  | succ n ih =>
    intro m pn m₁ r halloc hpn hidx hvp hrp hfc hlast hlr hlp hvl
    obtain ⟨hJg, hVg, hIdx2, hPn2, hSlt, hFa, hJI⟩ := getNextJob_pres m pn p hpn hvp hidx
    obtain ⟨hJgl, hVgl, _, _, _, _, _⟩ := getNextJob_pres m pn l hpn hvl hidx
    simp only [allocateJob] at halloc
    split at halloc
    · rename_i havail
      injection halloc with hpair
      injection hpair with hm hr
      subst hm
      subst hr
      have hprr : p ≠ (pn, (getNextJob m pn).2) := fun h => hrp h.symm
      have hlrr : l ≠ (pn, (getNextJob m pn).2) := hlr
      have hvrr : validRef (getNextJob m pn).1 (pn, (getNextJob m pn).2) := by
        refine ⟨hPn2, ?_⟩
        rw [hIdx2]
        exact hSlt
      have hv2rr : validRef (setJob (getNextJob m pn).1 (pn, (getNextJob m pn).2)
          ({ getJob (getNextJob m pn).1 (pn, (getNextJob m pn).2) with
             m_poolNumber := pn, m_onFinishedJob := none, m_pFirstChild := none,
             m_pLastChild := none, m_pNextSibling := none }))
          (pn, (getNextJob m pn).2) :=
        (validRef_setJob _ _ _ _).mpr hvrr
      have hv2p : validRef (setJob (getNextJob m pn).1 (pn, (getNextJob m pn).2)
          ({ getJob (getNextJob m pn).1 (pn, (getNextJob m pn).2) with
             m_poolNumber := pn, m_onFinishedJob := none, m_pFirstChild := none,
             m_pLastChild := none, m_pNextSibling := none })) p :=
        (validRef_setJob _ _ _ _).mpr hVg
      have hv2l : validRef (setJob (getNextJob m pn).1 (pn, (getNextJob m pn).2)
          ({ getJob (getNextJob m pn).1 (pn, (getNextJob m pn).2) with
             m_poolNumber := pn, m_onFinishedJob := none, m_pFirstChild := none,
             m_pLastChild := none, m_pNextSibling := none })) l :=
        (validRef_setJob _ _ _ _).mpr hVgl
      have hJ2p : getJob (setJob (getNextJob m pn).1 (pn, (getNextJob m pn).2)
          ({ getJob (getNextJob m pn).1 (pn, (getNextJob m pn).2) with
             m_poolNumber := pn, m_onFinishedJob := none, m_pFirstChild := none,
             m_pLastChild := none, m_pNextSibling := none })) p = getJob m p := by
        rw [getJob_setJob_ne _ _ _ _ hprr, hJg]
      have hJ2l : getJob (setJob (getNextJob m pn).1 (pn, (getNextJob m pn).2)
          ({ getJob (getNextJob m pn).1 (pn, (getNextJob m pn).2) with
             m_poolNumber := pn, m_onFinishedJob := none, m_pFirstChild := none,
             m_pLastChild := none, m_pNextSibling := none })) l = getJob m l := by
        rw [getJob_setJob_ne _ _ _ _ hlrr, hJgl]
      have hfc2 : (getJob (setJob (getNextJob m pn).1 (pn, (getNextJob m pn).2)
          ({ getJob (getNextJob m pn).1 (pn, (getNextJob m pn).2) with
             m_poolNumber := pn, m_onFinishedJob := none, m_pFirstChild := none,
             m_pLastChild := none, m_pNextSibling := none })) p).m_pFirstChild = some fc := by
        rw [hJ2p]
        exact hfc
      have hlast2 : (getJob (setJob (getNextJob m pn).1 (pn, (getNextJob m pn).2)
          ({ getJob (getNextJob m pn).1 (pn, (getNextJob m pn).2) with
             m_poolNumber := pn, m_onFinishedJob := none, m_pFirstChild := none,
             m_pLastChild := none, m_pNextSibling := none })) p).m_pLastChild = some l := by
        rw [hJ2p]
        exact hlast
      rw [setParentJob_eq_append _ _ _ _ _ hrp hv2p hlp hlr hfc2 hlast2]
      set M₂ := setJob (getNextJob m pn).1 (pn, (getNextJob m pn).2)
          ({ getJob (getNextJob m pn).1 (pn, (getNextJob m pn).2) with
             m_poolNumber := pn, m_onFinishedJob := none, m_pFirstChild := none,
             m_pLastChild := none, m_pNextSibling := none }) with hM₂def
      set rr : JobRef := (pn, (getNextJob m pn).2) with hrrdef
      set J1 := { getJob M₂ rr with m_parentJob := some p } with hJ1def
      set P2 := { getJob M₂ p with
        m_numUnfinishedChildren := (getJob M₂ p).m_numUnfinishedChildren + 1 } with hP2def
      set L3 := { getJob M₂ l with m_pNextSibling := some rr } with hL3def
      set P4 := { getJob M₂ p with
        m_numUnfinishedChildren := (getJob M₂ p).m_numUnfinishedChildren + 1,
        m_pLastChild := some rr } with hP4def
      have hvA : ∀ q, validRef (setJob M₂ rr J1) q ↔ validRef M₂ q :=
        fun q => validRef_setJob _ _ _ q
      have hvB : ∀ q, validRef (setJob (setJob M₂ rr J1) p P2) q
          ↔ validRef M₂ q := fun q => (validRef_setJob _ _ _ q).trans (hvA q)
      have hvC : ∀ q, validRef (setJob (setJob (setJob M₂ rr J1) p P2) l L3) q
          ↔ validRef M₂ q := fun q => (validRef_setJob _ _ _ q).trans (hvB q)
      have hvD : ∀ q, validRef (setJob (setJob (setJob (setJob M₂ rr J1) p P2) l L3) p P4) q
          ↔ validRef M₂ q := fun q => (validRef_setJob _ _ _ q).trans (hvC q)
      have hplne : p ≠ l := fun h => hlp h.symm
      have hfinp : getJob (setJob (setJob (setJob (setJob M₂ rr J1) p P2) l L3) p P4) p
          = P4 := getJob_setJob_self _ _ _ ((hvC p).mpr hv2p)
      have hfinr : getJob (setJob (setJob (setJob (setJob M₂ rr J1) p P2) l L3) p P4) rr
          = J1 := by
        rw [getJob_setJob_ne _ _ _ _ hrp, getJob_setJob_ne _ _ _ _ (fun h => hlr h.symm),
          getJob_setJob_ne _ _ _ _ hrp]
        exact getJob_setJob_self _ _ _ hv2rr
      have hfinl : getJob (setJob (setJob (setJob (setJob M₂ rr J1) p P2) l L3) p P4) l
          = L3 := by
        rw [getJob_setJob_ne _ _ _ _ hlp]
        exact getJob_setJob_self _ _ _ ((hvB l).mpr hv2l)
      refine ⟨(hvD rr).mpr hv2rr, (hvD p).mpr hv2p, ?_, ?_, ?_, ?_, ?_, ?_, ?_⟩
      · rw [hfinr, hJ1def]
      · rw [hfinp, hP4def]
        show (getJob M₂ p).m_numUnfinishedChildren + 1
          = (getJob m p).m_numUnfinishedChildren + 1
        rw [hJ2p]
      · rw [hfinp, hP4def]
        show (getJob M₂ p).m_pFirstChild = some fc
        rw [hJ2p]
        exact hfc
      · rw [hfinp, hP4def]
      · rw [hfinl, hL3def]
      · intro q hqr hqp hql hvq
        have hq2 : validRef M₂ q := by
          rw [hM₂def, validRef_setJob]
          exact (getNextJob_pres m pn q hpn hvq hidx).2.1
        have hJ2q : getJob M₂ q = getJob m q := by
          rw [hM₂def, getJob_setJob_ne _ _ _ _ hqr,
            (getNextJob_pres m pn q hpn hvq hidx).1]
        constructor
        · rw [getJob_setJob_ne _ _ _ _ hqp, getJob_setJob_ne _ _ _ _ hql,
            getJob_setJob_ne _ _ _ _ hqp, getJob_setJob_ne _ _ _ _ hqr]
          exact hJ2q
        · exact (hvD q).mpr hq2
      · intro q hvq
        refine (hvD q).mpr ?_
        rw [hM₂def, validRef_setJob]
        exact (getNextJob_pres m pn q hpn hvq hidx).2.1
    · rename_i havail
      have hpn' : pn < (getNextJob m pn).1.pools.length := hPn2
      have hidx' : (getPool (getNextJob m pn).1 pn).jobIndex
          ≤ (getPool (getNextJob m pn).1 pn).slots.length := by
        rw [hJI]
        omega
      have hfc' : (getJob (getNextJob m pn).1 p).m_pFirstChild = some fc := by
        rw [hJg]; exact hfc
      have hlast' : (getJob (getNextJob m pn).1 p).m_pLastChild = some l := by
        rw [hJg]; exact hlast
      obtain ⟨c1, c2, c3, c4, c5, c6, c7, c8, c9⟩ :=
        ih (getNextJob m pn).1 pn m₁ r halloc hpn' hidx' hVg hrp hfc' hlast' hlr hlp hVgl
      refine ⟨c1, c2, c3, ?_, c5, c6, c7, ?_, ?_⟩
      · rw [c4, hJg]
      · intro q hqr hqp hql hvq
        obtain ⟨d1, d2⟩ := c8 q hqr hqp hql (getNextJob_pres m pn q hpn hvq hidx).2.1
        exact ⟨d1.trans (getNextJob_pres m pn q hpn hvq hidx).1, d2⟩
      · intro q hvq
        exact c9 q (getNextJob_pres m pn q hpn hvq hidx).2.1

/-- C9: the successor registered by `onFinishedAddJob` is allocated with
the currently running job's parent as the successor's own parent: the new
job's `m_parentJob` is the current job's parent `p`, `p`'s
`m_numUnfinishedChildren` is incremented — so `p`'s completion is deferred
until the successor itself completes — and the successor is appended to
`p`'s child list (it becomes `m_pLastChild`; it becomes `m_pFirstChild`
when the list was empty, and otherwise the previous last child's
`m_pNextSibling` now points at it); the successor also receives the given
function and is recorded as the current job's `m_onFinishedJob`. -/
theorem onFinishedAddJob_wires_successor_to_parent
    (st : SysState) (tid f fuel : Nat) (c p : JobRef) (m₁ : JobMemoryS) (r fc0 l0 : JobRef)
    (hcur : st.jobPointers.getD (getThreadNumber st.threadIndexMap tid).1 none = some c)
    (hpb : (getPool st.mem (getJob st.mem c).m_poolNumber).isPlayedBack = false)
    (hpar : (getJob st.mem c).m_parentJob = some p)
    (halloc : allocateJob fuel st.mem (some p) (getJob st.mem c).m_poolNumber = some (m₁, r))
    (hpn : (getJob st.mem c).m_poolNumber < st.mem.pools.length)
    (hidx : (getPool st.mem (getJob st.mem c).m_poolNumber).jobIndex
      ≤ (getPool st.mem (getJob st.mem c).m_poolNumber).slots.length)
    (hvp : validRef st.mem p) (hvc : validRef st.mem c)
    (hrp : r ≠ p) (hrc : r ≠ c) (hpc : p ≠ c)
    (hshape : (getJob st.mem p).m_pFirstChild = none ∨
      ((getJob st.mem p).m_pFirstChild = some fc0 ∧
       (getJob st.mem p).m_pLastChild = some l0 ∧
       l0 ≠ r ∧ l0 ≠ p ∧ validRef st.mem l0)) :
    onFinishedAddJob st tid f fuel
      = some ({ st with
          threadIndexMap := (getThreadNumber st.threadIndexMap tid).2,
          mem := setOnFinished (setFunction m₁ r (some f)) c (some r) }) ∧
    (getJob (setOnFinished (setFunction m₁ r (some f)) c (some r)) r).m_parentJob = some p ∧
    (getJob (setOnFinished (setFunction m₁ r (some f)) c (some r)) r).m_function = some f ∧
    (getJob (setOnFinished (setFunction m₁ r (some f)) c (some r)) c).m_onFinishedJob
      = some r ∧
    (getJob (setOnFinished (setFunction m₁ r (some f)) c (some r)) p).m_numUnfinishedChildren
      = (getJob st.mem p).m_numUnfinishedChildren + 1 ∧
    (getJob (setOnFinished (setFunction m₁ r (some f)) c (some r)) p).m_pLastChild = some r ∧
    ((getJob st.mem p).m_pFirstChild = none →
      (getJob (setOnFinished (setFunction m₁ r (some f)) c (some r)) p).m_pFirstChild
        = some r) ∧
    ((getJob st.mem p).m_pFirstChild = some fc0 →
      (getJob (setOnFinished (setFunction m₁ r (some f)) c (some r)) p).m_pFirstChild
        = some fc0 ∧
      (getJob (setOnFinished (setFunction m₁ r (some f)) c (some r)) l0).m_pNextSibling
        = some r) := by
  have hpr : p ≠ r := fun h => hrp h.symm
  have hcr : c ≠ r := fun h => hrc h.symm
  have hcp : c ≠ p := fun h => hpc h.symm
  have heq : onFinishedAddJob st tid f fuel
      = some ({ st with
          threadIndexMap := (getThreadNumber st.threadIndexMap tid).2,
          mem := setOnFinished (setFunction m₁ r (some f)) c (some r) }) := by
    simp only [onFinishedAddJob, hcur, hpb, hpar, halloc, Bool.false_eq_true, if_false]
  rcases hshape with hnone | ⟨hfc0, hlast0, hl0r, hl0p, hvl0⟩
  · obtain ⟨a1, a2, a3, a4, a5, a6, a7, a8⟩ :=
      allocateJob_parent_nochild p fuel st.mem (getJob st.mem c).m_poolNumber m₁ r
        halloc hpn hidx hvp hrp hnone
    have hv1c : validRef m₁ c := a8 c hvc
    have hv2c : validRef (setFunction m₁ r (some f)) c := by
      unfold setFunction
      exact (validRef_setJob _ _ _ _).mpr hv1c
    have hM'r : getJob (setOnFinished (setFunction m₁ r (some f)) c (some r)) r
        = { getJob m₁ r with m_function := some f } := by
      unfold setOnFinished setFunction
      rw [getJob_setJob_ne _ _ _ _ hrc]
      exact getJob_setJob_self _ _ _ a1
    have hM'c : getJob (setOnFinished (setFunction m₁ r (some f)) c (some r)) c
        = { getJob (setFunction m₁ r (some f)) c with m_onFinishedJob := some r } := by
      unfold setOnFinished
      exact getJob_setJob_self _ _ _ hv2c
    have hM'p : getJob (setOnFinished (setFunction m₁ r (some f)) c (some r)) p
        = getJob m₁ p := by
      unfold setOnFinished setFunction
      rw [getJob_setJob_ne _ _ _ _ hpc, getJob_setJob_ne _ _ _ _ hpr]
    refine ⟨heq, ?_, ?_, ?_, ?_, ?_, ?_, ?_⟩
    · rw [hM'r]
      show (getJob m₁ r).m_parentJob = some p
      exact a3
    · rw [hM'r]
    · rw [hM'c]
    · rw [hM'p]
      exact a4
    · rw [hM'p]
      exact a6
    · intro _
      rw [hM'p]
      exact a5
    · intro hsome
      rw [hnone] at hsome
      simp at hsome
  · obtain ⟨b1, b2, b3, b4, b5, b6, b7, b8, b9⟩ :=
      allocateJob_parent_append p fc0 l0 fuel st.mem (getJob st.mem c).m_poolNumber m₁ r
        halloc hpn hidx hvp hrp hfc0 hlast0 hl0r hl0p hvl0
    have hv1c : validRef m₁ c := b9 c hvc
    have hv2c : validRef (setFunction m₁ r (some f)) c := by
      unfold setFunction
      exact (validRef_setJob _ _ _ _).mpr hv1c
    have hM'r : getJob (setOnFinished (setFunction m₁ r (some f)) c (some r)) r
        = { getJob m₁ r with m_function := some f } := by
      unfold setOnFinished setFunction
      rw [getJob_setJob_ne _ _ _ _ hrc]
      exact getJob_setJob_self _ _ _ b1
    have hM'c : getJob (setOnFinished (setFunction m₁ r (some f)) c (some r)) c
        = { getJob (setFunction m₁ r (some f)) c with m_onFinishedJob := some r } := by
      unfold setOnFinished
      exact getJob_setJob_self _ _ _ hv2c
    have hM'p : getJob (setOnFinished (setFunction m₁ r (some f)) c (some r)) p
        = getJob m₁ p := by
      unfold setOnFinished setFunction
      rw [getJob_setJob_ne _ _ _ _ hpc, getJob_setJob_ne _ _ _ _ hpr]
    refine ⟨heq, ?_, ?_, ?_, ?_, ?_, ?_, ?_⟩
    · rw [hM'r]
      show (getJob m₁ r).m_parentJob = some p
      exact b3
    · rw [hM'r]
    · rw [hM'c]
    · rw [hM'p]
      exact b4
    · rw [hM'p]
      exact b6
    · intro hn
      rw [hfc0] at hn
      simp at hn
    · intro _
      refine ⟨by rw [hM'p]; exact b5, ?_⟩
      by_cases hl0c : l0 = c
      · subst hl0c
        rw [hM'c]
        show (getJob (setFunction m₁ r (some f)) l0).m_pNextSibling = some r
        unfold setFunction
        rw [getJob_setJob_ne _ _ _ _ hl0r]
        exact b7
      · have hM'l0 : getJob (setOnFinished (setFunction m₁ r (some f)) c (some r)) l0
            = getJob m₁ l0 := by
          unfold setOnFinished setFunction
          rw [getJob_setJob_ne _ _ _ _ hl0c, getJob_setJob_ne _ _ _ _ hl0r]
        rw [hM'l0]
        exact b7

/-- Concrete scheduler state for the C9 witness: pool 0 holds a parent in
slot 0 whose only child (slot 1) is the thread's current job, and a free
slot 2; `jobIndex = 2` so the successor is allocated in slot 2. -/
def w9st : SysState :=
  ⟨⟨[⟨2,
      [⟨false, 0, some 10, none, 1, none, some (0, 1), some (0, 1), none⟩,
       ⟨false, 0, some 11, some (0, 0), 1, none, none, none, none⟩,
       ⟨true, 0, none, none, 0, none, none, none, none⟩],
      0, false, none⟩], false⟩,
   1, [[]], [some (0, 1)], []⟩

/-- The successful allocation that `onFinishedAddJob` performs on `w9st`. -/
def w9alloc : JobMemoryS × JobRef :=
  (allocateJob 1 w9st.mem (some (0, 0)) (getJob w9st.mem (0, 1)).m_poolNumber).getD
    (w9st.mem, (0, 0))

/-- Witness for C9 on the concrete state `w9st`. -/
theorem onFinishedAddJob_wires_successor_to_parent_w :
    onFinishedAddJob w9st 0 42 1
      = some ({ w9st with
          threadIndexMap := (getThreadNumber w9st.threadIndexMap 0).2,
          mem := setOnFinished (setFunction w9alloc.1 w9alloc.2 (some 42)) (0, 1)
            (some w9alloc.2) }) ∧
    (getJob (setOnFinished (setFunction w9alloc.1 w9alloc.2 (some 42)) (0, 1)
      (some w9alloc.2)) w9alloc.2).m_parentJob = some (0, 0) ∧
    (getJob (setOnFinished (setFunction w9alloc.1 w9alloc.2 (some 42)) (0, 1)
      (some w9alloc.2)) w9alloc.2).m_function = some 42 ∧
    (getJob (setOnFinished (setFunction w9alloc.1 w9alloc.2 (some 42)) (0, 1)
      (some w9alloc.2)) (0, 1)).m_onFinishedJob = some w9alloc.2 ∧
    (getJob (setOnFinished (setFunction w9alloc.1 w9alloc.2 (some 42)) (0, 1)
      (some w9alloc.2)) (0, 0)).m_numUnfinishedChildren
      = (getJob w9st.mem (0, 0)).m_numUnfinishedChildren + 1 ∧
    (getJob (setOnFinished (setFunction w9alloc.1 w9alloc.2 (some 42)) (0, 1)
      (some w9alloc.2)) (0, 0)).m_pLastChild = some w9alloc.2 ∧
    ((getJob w9st.mem (0, 0)).m_pFirstChild = none →
      (getJob (setOnFinished (setFunction w9alloc.1 w9alloc.2 (some 42)) (0, 1)
        (some w9alloc.2)) (0, 0)).m_pFirstChild = some w9alloc.2) ∧
    ((getJob w9st.mem (0, 0)).m_pFirstChild = some (0, 1) →
      (getJob (setOnFinished (setFunction w9alloc.1 w9alloc.2 (some 42)) (0, 1)
        (some w9alloc.2)) (0, 0)).m_pFirstChild = some (0, 1) ∧
      (getJob (setOnFinished (setFunction w9alloc.1 w9alloc.2 (some 42)) (0, 1)
        (some w9alloc.2)) (0, 1)).m_pNextSibling = some w9alloc.2) :=
  onFinishedAddJob_wires_successor_to_parent w9st 0 42 1 (0, 1) (0, 0)
    w9alloc.1 w9alloc.2 (0, 1) (0, 1)
    (by decide) (by decide) (by decide) (by decide) (by decide) (by decide)
    (by decide) (by decide) (by decide) (by decide) (by decide)
    (Or.inr ⟨by decide, by decide, by decide, by decide, by decide⟩)

/-- A fresh pool whose uninitialized `m_available` flags read `true` (were
they `false`, the very first `allocateJob` would spin forever in its probe
loop).  The real constructor builds one 4096-slot segment; two slots stand
for it here so the state is kernel-computable — the allocation probe below
only ever inspects slot 0, so the trace is identical. -/
def freshDemoMem : JobMemoryS :=
  ⟨[⟨0, List.replicate 2 (freshJob true), 0, false, none⟩], true⟩

/-- C2 (failing input): `allocateJob` probes for a slot with
`m_available == true` but never stores `false` into it — no statement in
lines 179-191 writes `m_available`.  Consequently, on a fresh pool the
first allocation returns slot (0,0) and leaves its `m_available` still
`true`; after a `resetPool` the next allocation hands out slot (0,0)
again even though the first Job is still live, so two live Jobs occupy
the same slot — exactly what the claim (and the spec's
"Set `available = false`") rules out. -/
theorem allocateJob_leaves_slot_available :
    ((allocateJob 1 freshDemoMem none 0).map Prod.snd) = some (0, 0) ∧
    ((allocateJob 1 freshDemoMem none 0).map
      (fun x => (getJob x.1 (0, 0)).m_available)) = some true ∧
    (((allocateJob 1 freshDemoMem none 0).bind
      (fun x => allocateJob 1 (resetPool x.1 0) none 0)).map Prod.snd) = some (0, 0) := by
  decide
